import Mathlib

/-!
# Verification of the chatbox-custom conversation core

Shallow embedding of the fork/thread data model, the context builder, the
compaction orchestrator and the context-token cache key computation of the
`chatbox-custom` repository, together with proofs and refutations of the
specification claims.

Source files embedded:
* `src/renderer/packages/context-management/context-builder.ts`
  (`buildContextForAI`, `findLatestCompactionPoint`, compaction orchestrator,
  `getLatestCompactionBoundaryId`, thread archive operations)
* `src/renderer/stores/session/forks.ts` (fork engine)
* `generation.ts` (`genMessageContext`, context-selection stage)

External collaborators (the message store, the summarization call) are
modelled as explicit parameters; fresh uuids and `Date.now()` timestamps are
passed in as arguments.
-/

/-- Message role, `'system' | 'user' | 'assistant'` in the source. -/
inductive Role where
  | system
  | user
  | assistant
deriving DecidableEq, Repr

/-- A message record. Only the fields the embedded operations inspect are
modelled: `id`, `role`, text content, the `generating` flag, the `isSummary`
flag, and whether the message carries tool-call parts (used by the tool-call
cleanup). -/
structure Message where
  id : String
  role : Role
  contents : String
  generating : Bool
  isSummary : Bool
  hasToolCalls : Bool
deriving DecidableEq, Repr

/-- `CompactionPoint` from `@shared/types`:
`{boundaryMessageId, summaryMessageId, createdAt}`. -/
structure CompactionPoint where
  boundaryMessageId : String
  summaryMessageId : String
  createdAt : Nat
deriving DecidableEq, Repr

/-- One branch record of a fork entry: `{id, messages}`. -/
structure ForkList where
  id : String
  messages : List Message
deriving DecidableEq, Repr

/-- `MessageForkEntry`: `{position, lists, createdAt}`. -/
structure MessageForkEntry where
  position : Nat
  lists : List ForkList
  createdAt : Nat
deriving DecidableEq, Repr

/-- The `messageForksHash` JS object, keyed by anchor message id, modelled as
an association list. -/
abbrev ForkMap : Type := List (String × MessageForkEntry)

/-- `SessionSettings` (the fields the core reads). -/
structure SessionSettings where
  highlightContextRoles : Option (List Role)
  autoCompaction : Option Bool
  maxContextMessageCount : Option Nat
  provider : Option String
  modelId : Option String
deriving DecidableEq, Repr

/-- An archived `SessionThread`: id, name, its own timeline, creation time,
its own fork map and its own (optional) compaction points. -/
structure SessionThread where
  id : String
  name : String
  messages : List Message
  createdAt : Nat
  messageForksHash : Option ForkMap
  compactionPoints : Option (List CompactionPoint)
deriving DecidableEq, Repr

/-- The `Session` aggregate root (fields the core touches). `Option` mirrors
TypeScript `undefined`. -/
structure Session where
  id : String
  name : String
  threadName : Option String
  messages : List Message
  threads : Option (List SessionThread)
  messageForksHash : Option ForkMap
  compactionPoints : Option (List CompactionPoint)
  settings : Option SessionSettings
deriving DecidableEq, Repr

/-- Helper mirroring JS `array.map((x, index) => ...)`, with the start index
as an accumulator. -/
def mapIdxFrom (f : Nat → α → β) : Nat → List α → List β
  | _, [] => []
  | i, a :: as => f i a :: mapIdxFrom f (i + 1) as

/-- JS `array.map((x, index) => ...)`. -/
def mapIdx (f : Nat → α → β) (l : List α) : List β := mapIdxFrom f 0 l

theorem length_mapIdxFrom (f : Nat → α → β) (i : Nat) (l : List α) :
    (mapIdxFrom f i l).length = l.length := by
  induction l generalizing i with
  | nil => rfl
  | cons a as ih => simp [mapIdxFrom, ih]

theorem length_mapIdx (f : Nat → α → β) (l : List α) :
    (mapIdx f l).length = l.length := length_mapIdxFrom f 0 l

theorem get?_mapIdxFrom (f : Nat → α → β) (i n : Nat) (l : List α) :
    (mapIdxFrom f i l).get? n = (l.get? n).map (f (i + n)) := by
  induction l generalizing i n with
  | nil => simp [mapIdxFrom]
  | cons a as ih =>
    cases n with
    | zero => simp [mapIdxFrom]
    | succ k =>
      simp only [mapIdxFrom, List.get?]
      rw [ih]
      ring_nf

theorem get?_mapIdx (f : Nat → α → β) (n : Nat) (l : List α) :
    (mapIdx f l).get? n = (l.get? n).map (f n) := by
  simpa using get?_mapIdxFrom f 0 n l

/-- JS `array.findIndex(pred)`, `none` standing for `-1`. -/
def findIndex (p : α → Bool) : List α → Option Nat
  | [] => none
  | a :: as => if p a then some 0 else (findIndex p as).map (· + 1)

theorem findIndex_lt_length (p : α → Bool) (l : List α) (i : Nat)
    (h : findIndex p l = some i) : i < l.length := by
  induction l generalizing i with
  | nil => simp [findIndex] at h
  | cons a as ih =>
    by_cases hp : p a
    · simp only [findIndex, hp, if_true, Option.some.injEq] at h
      subst h
      simp
    · simp only [findIndex, hp, if_false] at h
      cases hfa : findIndex p as with
      | none => rw [hfa] at h; simp at h
      | some j =>
        rw [hfa] at h
        simp at h
        have := ih j hfa
        simp only [List.length_cons]
        omega

theorem findIndex_get? (p : α → Bool) (l : List α) (i : Nat)
    (h : findIndex p l = some i) : ∃ a, l.get? i = some a ∧ p a = true := by
  induction l generalizing i with
  | nil => simp [findIndex] at h
  | cons x as ih =>
    by_cases hp : p x
    · simp only [findIndex, hp, if_true, Option.some.injEq] at h
      exact ⟨x, by simp [← h], hp⟩
    · simp only [findIndex, hp, if_false] at h
      cases hfa : findIndex p as with
      | none => rw [hfa] at h; simp at h
      | some j =>
        rw [hfa] at h
        simp at h
        obtain ⟨a, ha, hpa⟩ := ih j hfa
        subst h
        exact ⟨a, by simpa using ha, hpa⟩

/-- The first match of `findIndex` is preserved by truncating just after it
and appending anything. -/
theorem findIndex_take_append (p : α → Bool) (l : List α) (i : Nat)
    (h : findIndex p l = some i) (r : List α) :
    findIndex p (l.take (i + 1) ++ r) = some i := by
  induction l generalizing i r with
  | nil => simp [findIndex] at h
  | cons x as ih =>
    by_cases hp : p x
    · simp only [findIndex, hp, if_true, Option.some.injEq] at h
      subst h
      simp [findIndex, hp]
    · simp only [findIndex, hp, if_false] at h
      cases hfa : findIndex p as with
      | none => rw [hfa] at h; simp at h
      | some j =>
        rw [hfa] at h
        simp at h
        subst h
        have hrec := ih j hfa r
        simp [findIndex, hp, List.append_eq, hrec]

/-- `createMessage(role, text)` from `@shared/types`; the fresh uuid is passed
in explicitly. -/
def createMessage (freshId : String) (role : Role) (text : String) : Message :=
  { id := freshId, role := role, contents := text, generating := false,
    isSummary := false, hasToolCalls := false }

/-- `getMessageText` from `@shared/utils/message`: the text content of a
message. -/
def getMessageText (m : Message) : String := m.contents

/-- `session.threadName || session.name` — JS `||` treats the empty string as
falsy. -/
def threadNameOrName (s : Session) : String :=
  match s.threadName with
  | some t => if t = "" then s.name else t
  | none => s.name

/-! ## Tool-call cleanup

`cleanToolCalls` lives in
`src/renderer/packages/context-management/tool-cleanup.ts`, which is not part
of the provided sources (only its import site is). -/

/-- Helper for `cleanToolCalls`: walk the list dropping the first `n`
messages that carry tool-call parts; messages without tool-call parts are
always kept. -/
def dropOldToolMessages : List Message → Nat → List Message
  | [], _ => []
  | m :: rest, n =>
    if m.hasToolCalls then
      match n with
      | 0 => m :: dropOldToolMessages rest 0
      | k + 1 => dropOldToolMessages rest k
    else
      m :: dropOldToolMessages rest n

/-- Modelled from the spec: `cleanToolCalls` (tool-cleanup.ts, missing from
the provided sources) "collapses tool-call round-trips older than
`keepToolCallRounds` rounds from the tail".  We model one round as one
message carrying tool-call parts: all but the last `keepToolCallRounds`
tool-carrying messages are dropped, and messages without tool-call parts are
never touched — in particular the function is the identity on a timeline
that contains no tool calls ("cleanup only acts on older tool rounds"). -/
def cleanToolCalls (messages : List Message) (keepToolCallRounds : Nat) : List Message :=
  dropOldToolMessages messages
    ((messages.filter (fun m => m.hasToolCalls)).length - keepToolCallRounds)

/-! ## Context builder (`context-builder.ts` lines 19-134) -/

/-- `findLatestCompactionPoint`: JS `reduce` without an initial value over a
non-empty array — the head seeds the fold and a strictly greater `createdAt`
replaces the accumulator. -/
def findLatestCompactionPoint (compactionPoints : Option (List CompactionPoint)) :
    Option CompactionPoint :=
  match compactionPoints with
  | none => none
  | some [] => none
  | some (c :: rest) =>
    some (rest.foldl
      (fun latest current => if current.createdAt > latest.createdAt then current else latest) c)

/-- `findMessageIndex` — JS `findIndex`, `none` standing for `-1`. -/
def findMessageIndex (messages : List Message) (messageId : String) : Option Nat :=
  messages |> findIndex (fun m => decide (m.id = messageId))

/-- `findMessage` — JS `find`. -/
def findMessage (messages : List Message) (messageId : String) : Option Message :=
  messages.find? (fun m => decide (m.id = messageId))

/-- `buildContextForAI` (context-builder.ts lines 19-60).  The options object
is flattened into arguments; `contextRoles` is
`options.sessionSettings?.highlightContextRoles`. -/
def buildContextForAI (messages : List Message) (compactionPoints : Option (List CompactionPoint))
    (keepToolCallRounds : Nat) (sessionSettings : Option SessionSettings) : List Message :=
  let contextRoles := sessionSettings.bind SessionSettings.highlightContextRoles
  let completedMessages := messages.filter (fun m => !m.generating)
  if completedMessages.isEmpty then
    []
  else
    let applyRoleFilter := fun (msgs : List Message) =>
      match contextRoles with
      | some roles => msgs.filter (fun m => roles.contains m.role)
      | none => msgs
    match findLatestCompactionPoint compactionPoints with
    | none => applyRoleFilter (cleanToolCalls completedMessages keepToolCallRounds)
    | some latestCompactionPoint =>
      match findMessageIndex completedMessages latestCompactionPoint.boundaryMessageId with
      | none => applyRoleFilter (cleanToolCalls completedMessages keepToolCallRounds)
      | some boundaryIndex =>
        let summaryMessage :=
          findMessage completedMessages latestCompactionPoint.summaryMessageId
        let messagesAfterBoundary :=
          (completedMessages.drop (boundaryIndex + 1)).filter (fun m => !m.isSummary)
        let contextMessages :=
          match summaryMessage with
          | some s => s :: messagesAfterBoundary
          | none => messagesAfterBoundary
        let contextMessages :=
          match completedMessages.find? (fun m => decide (m.role = Role.system)) with
          | some systemMessage =>
            if contextMessages.any (fun m => decide (m.id = systemMessage.id)) then
              contextMessages
            else
              systemMessage :: contextMessages
          | none => contextMessages
        applyRoleFilter (cleanToolCalls contextMessages keepToolCallRounds)

/-! ## Context-token cache key (`context-tokens.ts`, lines 511-520 of the
combined file) -/

/-- `getLatestCompactionBoundaryId`: JS `reduce` with initial accumulator
`undefined` and comparison `current.createdAt > (latest?.createdAt ?? 0)`. -/
def getLatestCompactionBoundaryId (compactionPoints : Option (List CompactionPoint)) :
    Option String :=
  match compactionPoints with
  | none => none
  | some cps =>
    if cps.isEmpty then
      none
    else
      (cps.foldl
        (fun latest current =>
          if current.createdAt > ((latest.map CompactionPoint.createdAt).getD 0) then
            some current
          else
            latest)
        (none : Option CompactionPoint)).map CompactionPoint.boundaryMessageId

/-! ## Generation context selection (`generation.ts`, `genMessageContext`)

`genMessageContext` builds the prompt for the model call.  We embed its
context-selection stage (the part the role-filter survival guarantee lives
in): the compaction branch, the direct role filter, and the block that
re-inserts the system prompt and the last user message after role filtering.
The later stages (attachment blob inlining and the token/`maxContextMessageCount`
truncation loop) are outside this stage. -/

/-- The context-selection stage of `genMessageContext` (generation.ts): if
compaction points are present, delegate to `buildContextForAI` (which role
filters internally); otherwise apply the role filter directly; then, whenever
a role filter is configured, re-insert the first system message at the head
and the last user message at the tail if their ids are absent. -/
def genMessageContextMessages (settings : SessionSettings) (msgs : List Message)
    (compactionPoints : Option (List CompactionPoint)) : List Message :=
  let contextMessages :=
    if 0 < (compactionPoints.getD []).length then
      buildContextForAI msgs compactionPoints 2 (some settings)
    else
      match settings.highlightContextRoles with
      | some contextRoles => msgs.filter (fun m => contextRoles.contains m.role)
      | none => msgs
  match settings.highlightContextRoles with
  | none => contextMessages
  | some _ =>
    let systemMsg := msgs.find? (fun m => decide (m.role = Role.system))
    let lastUserMsg := msgs.reverse.find? (fun m => decide (m.role = Role.user))
    let contextMessages :=
      match systemMsg with
      | some sm =>
        if contextMessages.any (fun m => decide (m.id = sm.id)) then
          contextMessages
        else
          sm :: contextMessages
      | none => contextMessages
    match lastUserMsg with
    | some um =>
      if contextMessages.any (fun m => decide (m.id = um.id)) then
        contextMessages
      else
        contextMessages ++ [um]
    | none => contextMessages

/-! ## Thread archive (`threads.ts`, lines 662-858 of the combined
context-builder file)

Each operation is a read-modify-write against the message store; we embed
the session transformation.  Fresh uuids and `Date.now()` are arguments. -/

/-- `switchThread(sessionId, threadId)`: remove the target thread, archive
the current live timeline (timeline + fork map; note no `compactionPoints`
field is written into the archived entry, and the live `compactionPoints`
field is not part of the update), and make the target's snapshot live. -/
def switchThread (session : Session) (threadId : String) (newArchiveId : String)
    (now : Nat) : Session :=
  match session.threads with
  | none => session
  | some threads =>
    match threads.find? (fun h => decide (h.id = threadId)) with
    | none => session
    | some target =>
      let newThreads :=
        (threads.filter (fun h => decide (h.id ≠ threadId))) ++
          [{ id := newArchiveId, name := threadNameOrName session,
             messages := session.messages, createdAt := now,
             messageForksHash := session.messageForksHash,
             compactionPoints := none }]
      { session with
        threads := some newThreads,
        messages := target.messages,
        threadName := some target.name,
        messageForksHash := target.messageForksHash }

/-- `refreshContextAndCreateNewThread(sessionId)` ("new thread"): archive the
live timeline (timeline + fork map) and replace the live timeline with just
the preserved system prompt (or a default one).  The update writes `threads`,
`messages` and `threadName` only. -/
def refreshContextAndCreateNewThread (session : Session) (newThreadId : String)
    (now : Nat) (freshSystemId : String) (defaultPrompt : String) : Session :=
  let newThread : SessionThread :=
    { id := newThreadId, name := threadNameOrName session,
      messages := session.messages, createdAt := now,
      messageForksHash := session.messageForksHash, compactionPoints := none }
  let systemPrompt :=
    (session.messages.find? (fun m => decide (m.role = Role.system))).map
      (fun sp => createMessage freshSystemId Role.system (getMessageText sp))
  { session with
    threads := some ((session.threads.getD []) ++ [newThread]),
    messages :=
      match systemPrompt with
      | some sp => [sp]
      | none => [createMessage freshSystemId Role.system defaultPrompt],
    threadName := some "" }

/-- `newThreadFromHere(sessionId, upToMessageId)`: archive the live timeline
(timeline + fork map), keep a fresh-id copy of the messages up to the
boundary, and clear the live fork map and the live compaction points. -/
def newThreadFromHere (session : Session) (upToMessageId : String) (newThreadId : String)
    (now : Nat) (freshIds : Nat → String) : Session :=
  match session.messages |> findIndex (fun m => decide (m.id = upToMessageId)) with
  | none => session
  | some boundaryIndex =>
    let newThread : SessionThread :=
      { id := newThreadId, name := threadNameOrName session,
        messages := session.messages, createdAt := now,
        messageForksHash := session.messageForksHash, compactionPoints := none }
    let newMessages :=
      mapIdx (fun i m => { m with id := freshIds i }) (session.messages.take (boundaryIndex + 1))
    { session with
      threads := some ((session.threads.getD []) ++ [newThread]),
      messages := newMessages,
      threadName := some "",
      messageForksHash := none,
      compactionPoints := none }

/-- `compressAndCreateThread(sessionId, summary)` ("compress to new thread"):
archive the live timeline (timeline + fork map), start a new live timeline
holding the original system prompt (if any) plus the summary as a user
message, and clear the live fork map.  `compactionPoints` is not part of the
update. -/
def compressAndCreateThread (session : Session) (summary : String) (newThreadId : String)
    (now : Nat) (freshSystemId freshUserId : String) : Session :=
  let newThread : SessionThread :=
    { id := newThreadId, name := threadNameOrName session,
      messages := session.messages, createdAt := now,
      messageForksHash := session.messageForksHash, compactionPoints := none }
  let systemPromptText :=
    match session.messages.find? (fun m => decide (m.role = Role.system)) with
    | some sp => getMessageText sp
    | none => ""
  let newMessages :=
    (if systemPromptText ≠ "" then [createMessage freshSystemId Role.system systemPromptText]
     else []) ++
    [createMessage freshUserId Role.user ("Previous conversation summary:\n\n" ++ summary)]
  { session with
    threads := some ((session.threads.getD []) ++ [newThread]),
    messages := newMessages,
    threadName := some "",
    messageForksHash := none }

/-! ## Fork engine (`forks.ts`)

All five public operations are atomic read-modify-write transforms over the
session; each is embedded as a pure `Session → Session` function. Fresh
uuids and `Date.now()` are arguments. -/

/-- Direction argument of `switchFork`. -/
inductive ForkDirection where
  | next
  | prev
deriving DecidableEq, Repr

/-- Result of `switchForkInMessages` / `switchForkInMessagesToPosition`:
`{messages, fork}` where `fork = none` means the entry collapses. -/
structure SwitchForkResult where
  messages : List Message
  fork : Option MessageForkEntry
deriving DecidableEq, Repr

/-- Result of the transforms fed to `applyForkTransform`. -/
structure ForkTransformResult where
  messages : List Message
  forkEntry : Option MessageForkEntry
deriving DecidableEq, Repr

/-- `computeNextMessageForksHash`: write `nextEntry` under `forkMessageId`
(replacing any existing binding), or remove the key when `nextEntry` is
`null`; an emptied object becomes `undefined`. -/
def computeNextMessageForksHash (current : Option ForkMap) (forkMessageId : String)
    (nextEntry : Option MessageForkEntry) : Option ForkMap :=
  match nextEntry with
  | some e =>
    some ((current.getD []).filter (fun p => decide (p.1 ≠ forkMessageId)) ++ [(forkMessageId, e)])
  | none =>
    match current with
    | none => none
    | some m =>
      if (m.lookup forkMessageId).isNone then
        some m
      else
        let rest := m.filter (fun p => decide (p.1 ≠ forkMessageId))
        if rest.isEmpty then none else some rest

/-- `switchForkInMessages` (forks.ts lines 203-271).  The early return inside
the empty-branch pruning block is flattened into a first conditional; the
remainder mirrors the source's `updatedLists` / `adjustedCurrentPosition` /
`newPosition` / `finalLists` computation.  JS `(x - 1 + total) % total` on a
non-negative `x` is written `(x + total - 1) % total`. -/
def switchForkInMessages (messages : List Message) (forkEntry : MessageForkEntry)
    (forkMessageId : String) (direction : ForkDirection) : Option SwitchForkResult :=
  match messages |> findIndex (fun m => decide (m.id = forkMessageId)) with
  | none => none
  | some forkMessageIndex =>
    let currentTail := messages.drop (forkMessageIndex + 1)
    let currentPosition := forkEntry.position
    let isCurrentBranchEmpty := currentTail.isEmpty
    let prunedLists := forkEntry.lists.eraseIdx currentPosition
    if isCurrentBranchEmpty ∧ prunedLists.length ≤ 1 then
      -- only one branch remains after removing the empty live branch: collapse
      some { messages :=
               messages.take (forkMessageIndex + 1) ++
                 (((prunedLists.get? 0).map ForkList.messages).getD []),
             fork := none }
    else
      let updatedLists := if isCurrentBranchEmpty then prunedLists else forkEntry.lists
      let adjustedCurrentPosition :=
        if isCurrentBranchEmpty then
          if currentPosition ≥ updatedLists.length then updatedLists.length - 1
          else currentPosition
        else currentPosition
      let total := updatedLists.length
      let newPosition :=
        match direction with
        | .next => (adjustedCurrentPosition + 1) % total
        | .prev => (adjustedCurrentPosition + total - 1) % total
      let branchMessages := ((updatedLists.get? newPosition).map ForkList.messages).getD []
      let finalLists :=
        mapIdx (fun index list =>
          if isCurrentBranchEmpty = false ∧ index = adjustedCurrentPosition ∧
              adjustedCurrentPosition ≠ newPosition then
            { list with messages := currentTail }
          else if index = newPosition then
            { list with messages := [] }
          else list) updatedLists
      some { messages := messages.take (forkMessageIndex + 1) ++ branchMessages,
             fork := some { forkEntry with position := newPosition, lists := finalLists } }

/-- `switchForkInMessagesToPosition` (forks.ts lines 273-301). -/
def switchForkInMessagesToPosition (messages : List Message) (forkEntry : MessageForkEntry)
    (forkMessageId : String) (targetPosition : Nat) : Option SwitchForkResult :=
  match messages |> findIndex (fun m => decide (m.id = forkMessageId)) with
  | none => none
  | some forkMessageIndex =>
    let currentTail := messages.drop (forkMessageIndex + 1)
    let currentPosition := forkEntry.position
    if targetPosition ≥ forkEntry.lists.length then
      none
    else
      let branchMessages :=
        ((forkEntry.lists.get? targetPosition).map ForkList.messages).getD []
      let finalLists :=
        mapIdx (fun index list =>
          if index = currentPosition ∧ currentPosition ≠ targetPosition then
            { list with messages := currentTail }
          else if index = targetPosition then
            { list with messages := [] }
          else list) forkEntry.lists
      some { messages := messages.take (forkMessageIndex + 1) ++ branchMessages,
             fork := some { forkEntry with position := targetPosition, lists := finalLists } }

/-- The thread scan of `buildSwitchForkPatch`: apply `switchForkInMessages`
to the first thread where it succeeds (the source uses a `map` with a
`forkWasProcessed` flag). -/
def switchForkInThreads (threads : List SessionThread) (forkEntry : MessageForkEntry)
    (forkMessageId : String) (direction : ForkDirection) :
    Option (List SessionThread × Option MessageForkEntry) :=
  match threads with
  | [] => none
  | t :: ts =>
    match switchForkInMessages t.messages forkEntry forkMessageId direction with
    | some r => some ({ t with messages := r.messages } :: ts, r.fork)
    | none =>
      match switchForkInThreads ts forkEntry forkMessageId direction with
      | some (ts2, f) => some (t :: ts2, f)
      | none => none

/-- `buildSwitchForkPatch` (forks.ts lines 147-201); the `Partial<Session>`
patch is returned merged into the session. -/
def buildSwitchForkPatch (session : Session) (forkMessageId : String)
    (direction : ForkDirection) : Option Session :=
  match session.messageForksHash with
  | none => none
  | some messageForksHash =>
    match messageForksHash.lookup forkMessageId with
    | none => none
    | some forkEntry =>
      if forkEntry.lists.length ≤ 1 then
        none
      else
        match switchForkInMessages session.messages forkEntry forkMessageId direction with
        | some rootResult =>
          some { session with
                 messages := rootResult.messages,
                 messageForksHash :=
                   computeNextMessageForksHash (some messageForksHash) forkMessageId
                     rootResult.fork }
        | none =>
          match session.threads with
          | none => none
          | some threads =>
            match switchForkInThreads threads forkEntry forkMessageId direction with
            | none => none
            | some (updatedThreads, updatedFork) =>
              some { session with
                     threads := some updatedThreads,
                     messageForksHash :=
                       computeNextMessageForksHash (some messageForksHash) forkMessageId
                         updatedFork }

/-- `switchFork(sessionId, forkMessageId, direction)`: apply the patch, or
leave the session unchanged when `buildSwitchForkPatch` is `null`. -/
def switchFork (session : Session) (forkMessageId : String)
    (direction : ForkDirection) : Session :=
  (buildSwitchForkPatch session forkMessageId direction).getD session

/-- The thread scan of `applyForkTransform` (the source `map` with a
`changed` flag). -/
def applyForkTransformThreads (threads : List SessionThread)
    (tryTransform : List Message → Option ForkTransformResult) :
    Option (List SessionThread × Option MessageForkEntry) :=
  match threads with
  | [] => none
  | t :: ts =>
    match tryTransform t.messages with
    | some r => some ({ t with messages := r.messages } :: ts, r.forkEntry)
    | none =>
      match applyForkTransformThreads ts tryTransform with
      | some (ts2, f) => some (t :: ts2, f)
      | none => none

/-- `applyForkTransform` (forks.ts lines 433-485). -/
def applyForkTransform (session : Session) (forkMessageId : String)
    (ensureForkEntry : Unit → Option MessageForkEntry)
    (transform : List Message → MessageForkEntry → Option ForkTransformResult) :
    Option Session :=
  let tryTransform := fun (messages : List Message) =>
    match ensureForkEntry () with
    | none => none
    | some forkEntry => transform messages forkEntry
  match tryTransform session.messages with
  | some rootResult =>
    some { session with
           messages := rootResult.messages,
           messageForksHash :=
             computeNextMessageForksHash session.messageForksHash forkMessageId
               rootResult.forkEntry }
  | none =>
    match session.threads with
    | none => none
    | some threads =>
      match applyForkTransformThreads threads tryTransform with
      | none => none
      | some (updatedThreads, updatedFork) =>
        some { session with
               threads := some updatedThreads,
               messageForksHash :=
                 computeNextMessageForksHash session.messageForksHash forkMessageId
                   updatedFork }

/-- The transform of `buildCreateForkPatch` (forks.ts lines 318-356): move
the tail after the anchor out of line into the slot at the current position
and append a fresh empty branch, which becomes the live one. -/
def createForkTransform (forkMessageId storedListId newBranchId : String)
    (messages : List Message) (forkEntry : MessageForkEntry) :
    Option ForkTransformResult :=
  match messages |> findIndex (fun m => decide (m.id = forkMessageId)) with
  | none => none
  | some forkMessageIndex =>
    let backupMessages := messages.drop (forkMessageIndex + 1)
    if backupMessages.isEmpty then
      none
    else
      let lists :=
        mapIdx (fun index list =>
          if index = forkEntry.position then
            { id := storedListId, messages := backupMessages }
          else list) forkEntry.lists
      let nextPosition := lists.length
      let updatedFork : MessageForkEntry :=
        { forkEntry with
          position := nextPosition,
          lists := lists ++ [{ id := newBranchId, messages := [] }] }
      some { messages := messages.take (forkMessageIndex + 1), forkEntry := some updatedFork }

/-- `buildCreateForkPatch` (forks.ts lines 303-358); the fresh list ids and
the `Date.now()` of the fallback entry are arguments. -/
def buildCreateForkPatch (session : Session) (forkMessageId : String)
    (freshEntryListId storedListId newBranchId : String) (now : Nat) : Option Session :=
  applyForkTransform session forkMessageId
    (fun _ =>
      some (((session.messageForksHash.getD []).lookup forkMessageId).getD
        { position := 0, lists := [{ id := freshEntryListId, messages := [] }],
          createdAt := now }))
    (createForkTransform forkMessageId storedListId newBranchId)

/-- `createNewFork(sessionId, forkMessageId)`. -/
def createNewFork (session : Session) (forkMessageId : String)
    (freshEntryListId storedListId newBranchId : String) (now : Nat) : Session :=
  (buildCreateForkPatch session forkMessageId freshEntryListId storedListId newBranchId
    now).getD session

/-- The transform of `buildDeleteForkPatch` (forks.ts lines 365-400):
remove the branch at the current position, trim the timeline to the anchor
and splice the branch at the clamped position back in. -/
def deleteForkTransform (forkMessageId : String) (messages : List Message)
    (forkEntry : MessageForkEntry) : Option ForkTransformResult :=
  match messages |> findIndex (fun m => decide (m.id = forkMessageId)) with
  | none => none
  | some forkMessageIndex =>
    let trimmedMessages := messages.take (forkMessageIndex + 1)
    let remainingLists := forkEntry.lists.eraseIdx forkEntry.position
    if remainingLists.isEmpty then
      some { messages := trimmedMessages, forkEntry := none }
    else
      let nextPosition := min forkEntry.position (remainingLists.length - 1)
      let carryMessages := ((remainingLists.get? nextPosition).map ForkList.messages).getD []
      let updatedLists :=
        mapIdx (fun index list =>
          if index = nextPosition then { list with messages := [] } else list) remainingLists
      some { messages := trimmedMessages ++ carryMessages,
             forkEntry := some { forkEntry with position := nextPosition, lists := updatedLists } }

/-- `buildDeleteForkPatch` (forks.ts lines 360-402). -/
def buildDeleteForkPatch (session : Session) (forkMessageId : String) : Option Session :=
  applyForkTransform session forkMessageId
    (fun _ => (session.messageForksHash.getD []).lookup forkMessageId)
    (deleteForkTransform forkMessageId)

/-- `deleteFork(sessionId, forkMessageId)`. -/
def deleteFork (session : Session) (forkMessageId : String) : Session :=
  (buildDeleteForkPatch session forkMessageId).getD session

/-- The transform of `buildExpandForkPatch` (forks.ts lines 409-427). -/
def expandForkTransform (forkMessageId : String) (messages : List Message)
    (forkEntry : MessageForkEntry) : Option ForkTransformResult :=
  match messages |> findIndex (fun m => decide (m.id = forkMessageId)) with
  | none => none
  | some _ =>
    let mergedMessages := forkEntry.lists.flatMap ForkList.messages
    if mergedMessages.isEmpty then
      some { messages := messages, forkEntry := none }
    else
      some { messages := messages ++ mergedMessages, forkEntry := none }

/-- `buildExpandForkPatch` (forks.ts lines 404-428). -/
def buildExpandForkPatch (session : Session) (forkMessageId : String) : Option Session :=
  applyForkTransform session forkMessageId
    (fun _ => (session.messageForksHash.getD []).lookup forkMessageId)
    (expandForkTransform forkMessageId)

/-- `expandFork(sessionId, forkMessageId)` (deprecated but supported). -/
def expandFork (session : Session) (forkMessageId : String) : Session :=
  (buildExpandForkPatch session forkMessageId).getD session

/-- The thread scan of `switchForkToPosition`. -/
def switchForkToPositionThreads (threads : List SessionThread)
    (forkEntry : MessageForkEntry) (forkMessageId : String) (targetPosition : Nat) :
    Option (List SessionThread × Option MessageForkEntry) :=
  match threads with
  | [] => none
  | t :: ts =>
    match switchForkInMessagesToPosition t.messages forkEntry forkMessageId targetPosition with
    | some r => some ({ t with messages := r.messages } :: ts, r.fork)
    | none =>
      match switchForkToPositionThreads ts forkEntry forkMessageId targetPosition with
      | some (ts2, f) => some (t :: ts2, f)
      | none => none

/-- `switchForkToPosition(sessionId, forkMessageId, targetPosition)`
(forks.ts lines 67-104). -/
def switchForkToPosition (session : Session) (forkMessageId : String)
    (targetPosition : Nat) : Session :=
  match session.messageForksHash with
  | none => session
  | some messageForksHash =>
    match messageForksHash.lookup forkMessageId with
    | none => session
    | some forkEntry =>
      if targetPosition = forkEntry.position then
        session
      else
        match switchForkInMessagesToPosition session.messages forkEntry forkMessageId
            targetPosition with
        | some rootResult =>
          { session with
            messages := rootResult.messages,
            messageForksHash :=
              computeNextMessageForksHash (some messageForksHash) forkMessageId
                rootResult.fork }
        | none =>
          match session.threads with
          | none => session
          | some threads =>
            if threads.isEmpty then
              session
            else
              match switchForkToPositionThreads threads forkEntry forkMessageId
                  targetPosition with
              | none => session
              | some (updatedThreads, updatedFork) =>
                { session with
                  threads := some updatedThreads,
                  messageForksHash :=
                    computeNextMessageForksHash (some messageForksHash) forkMessageId
                      updatedFork }

/-! ## Compaction orchestrator (`compaction.ts`, lines 164-374 of the
combined context-builder file)

`runCompactionWithStreaming` runs on a single-threaded cooperative scheduler:
the in-flight membership check and insertion happen synchronously (no `await`
between them), so we model them as one atomic step (`compactionGuard`); the
`try` body suspends at its `await`s, whose outcomes are supplied by a
`CompactionEnv` snapshot (an `Except` value models a thrown exception); the
`finally` is `compactionRelease`.  The session update commits through the
single functional patch `compactionCommitPatch`. -/

/-- Result object `{success, compacted, error?, summaryMessageId?}`; the
error is carried as its message string. -/
structure CompactionResult where
  success : Bool
  compacted : Bool
  error : Option String
  summaryMessageId : Option String
deriving DecidableEq, Repr

/-- Outcome of the external `generateSummaryWithStream` collaborator:
`{success, summary?, error?}`. -/
structure SummaryResult where
  success : Bool
  summary : Option String
  error : Option String
deriving DecidableEq, Repr

/-- `session.settings?.modelId ?? globalSettings.defaultChatModel?.model`
(line 302). -/
def resolveModelId (session : Session) (globalDefault : Option String) : Option String :=
  match session.settings.bind SessionSettings.modelId with
  | some m => some m
  | none => globalDefault

/-- Snapshot of the awaited external calls made by the `try` body of
`runCompactionWithStreaming`; `Except.error` models a thrown exception at
that suspension point. -/
structure CompactionEnv where
  getSession : Except String (Option Session)
  getSessionSettings : Except String SessionSettings
  globalDefaultModelId : Option String
  summaryResult : Except String SummaryResult
  updateResult : Except String Unit
  summaryMessageIdFresh : String
  now : Nat

/-- The synchronous check-and-mark at the top of
`runCompactionWithStreaming` (lines 288-292): `none` when the session is
already in flight (the caller then returns `{success: true, compacted:
false}`), otherwise the set with the session id marked. -/
def compactionGuard (ongoingCompactions : List String) (sessionId : String) :
    Option (List String) :=
  if sessionId ∈ ongoingCompactions then none else some (sessionId :: ongoingCompactions)

/-- The `finally` block (line 372): `ongoingCompactions.delete(sessionId)`. -/
def compactionRelease (ongoingCompactions : List String) (sessionId : String) : List String :=
  ongoingCompactions.erase sessionId

/-- The functional patch passed to `updateSessionWithMessages` on the success
path (lines 342-358): it throws when the current session is absent, and
otherwise appends the summary message to `messages` and the compaction point
to `compactionPoints` in one atomic update, leaving every other field of the
session value current at commit time alone. -/
def compactionCommitPatch (summaryMessage : Message) (newCompactionPoint : CompactionPoint)
    (currentSession : Option Session) : Except String Session :=
  match currentSession with
  | none => Except.error "Session not found during update"
  | some currentSession =>
    Except.ok
      { currentSession with
        messages := currentSession.messages ++ [summaryMessage],
        compactionPoints :=
          some ((currentSession.compactionPoints.getD []) ++ [newCompactionPoint]) }

/-- Outcome of the `try` body: the result object, whether the summarization
collaborator was invoked, and the commit data handed to the store (`none`
when no session mutation was applied; `some (summaryMessage, point)` when the
store applied `compactionCommitPatch summaryMessage point` once). -/
structure CompactionBodyOutcome where
  result : CompactionResult
  summaryCalled : Bool
  committed : Option (Message × CompactionPoint)
deriving Repr

/-- The `try`/`catch` body of `runCompactionWithStreaming` (lines 294-370):
every thrown exception is converted to an error result by the `catch`
branch; only the final `updateSessionWithMessages` mutates the session. -/
def runCompactionStreamingBody (env : CompactionEnv) : CompactionBodyOutcome :=
  match env.getSession with
  | Except.error e =>
    { result := { success := false, compacted := false, error := some e,
                  summaryMessageId := none },
      summaryCalled := false, committed := none }
  | Except.ok none =>
    { result := { success := false, compacted := false, error := some "Session not found",
                  summaryMessageId := none },
      summaryCalled := false, committed := none }
  | Except.ok (some session) =>
    match resolveModelId session env.globalDefaultModelId with
    | none =>
      { result := { success := true, compacted := false, error := none,
                    summaryMessageId := none },
        summaryCalled := false, committed := none }
    | some _ =>
      match env.getSessionSettings with
      | Except.error e =>
        { result := { success := false, compacted := false, error := some e,
                      summaryMessageId := none },
          summaryCalled := false, committed := none }
      | Except.ok _mergedSettings =>
        match env.summaryResult with
        | Except.error e =>
          { result := { success := false, compacted := false, error := some e,
                        summaryMessageId := none },
            summaryCalled := true, committed := none }
        | Except.ok summaryResult =>
          -- `!summaryResult.success || !summaryResult.summary`: `undefined`
          -- and the empty string are both falsy in JS
          if summaryResult.success = false ∨ summaryResult.summary.getD "" = "" then
            { result := { success := false, compacted := false,
                          error := some (summaryResult.error.getD "Failed to generate summary"),
                          summaryMessageId := none },
              summaryCalled := true, committed := none }
          else
            let summaryMessage :=
              { createMessage env.summaryMessageIdFresh Role.assistant
                  (summaryResult.summary.getD "") with isSummary := true }
            match session.messages.reverse.find? (fun m => !m.isSummary) with
            | none =>
              { result := { success := false, compacted := false,
                            error := some "No messages to compact",
                            summaryMessageId := none },
                summaryCalled := true, committed := none }
            | some lastNonSummaryMessage =>
              let newCompactionPoint : CompactionPoint :=
                { summaryMessageId := summaryMessage.id,
                  boundaryMessageId := lastNonSummaryMessage.id,
                  createdAt := env.now }
              match env.updateResult with
              | Except.error e =>
                { result := { success := false, compacted := false, error := some e,
                              summaryMessageId := none },
                  summaryCalled := true, committed := none }
              | Except.ok _ =>
                { result := { success := true, compacted := true, error := none,
                              summaryMessageId := some summaryMessage.id },
                  summaryCalled := true,
                  committed := some (summaryMessage, newCompactionPoint) }

/-- `runCompactionWithStreaming` as a whole: guard, body, release.  When the
guard rejects, the early return fires before the body; otherwise the body
runs and the `finally` clears the marker on every exit path. -/
def runCompactionWithStreaming (ongoingCompactions : List String) (sessionId : String)
    (env : CompactionEnv) : CompactionBodyOutcome × List String :=
  match compactionGuard ongoingCompactions sessionId with
  | none =>
    ({ result := { success := true, compacted := false, error := none,
                   summaryMessageId := none },
       summaryCalled := false, committed := none },
     ongoingCompactions)
  | some marked =>
    let outcome := runCompactionStreamingBody env
    (outcome, compactionRelease marked sessionId)

/-! ## Claim C10: frame property of the compaction commit patch -/

/-- C10.  On every successful compaction, the commit is a functional patch
applied to the session value current at commit time: it appends exactly the
new summary message at the end of `messages` and exactly the new compaction
point at the end of `compactionPoints`, and every other field of the session
— its id, name, thread name, archived threads, fork map and settings — is
unchanged, whatever the session value at commit time is. -/
theorem c10_commit_patch_frame (summaryMessage : Message) (newCompactionPoint : CompactionPoint)
    (s : Session) :
    ∃ s2, compactionCommitPatch summaryMessage newCompactionPoint (some s) = Except.ok s2 ∧
      s2.messages = s.messages ++ [summaryMessage] ∧
      s2.compactionPoints = some ((s.compactionPoints.getD []) ++ [newCompactionPoint]) ∧
      s2.id = s.id ∧ s2.name = s.name ∧ s2.threadName = s.threadName ∧
      s2.threads = s.threads ∧ s2.messageForksHash = s.messageForksHash ∧
      s2.settings = s.settings := by
  exact ⟨_, rfl, rfl, rfl, rfl, rfl, rfl, rfl, rfl, rfl⟩

/-! ## Claim C9: the latest-compaction-boundary reduction -/

/-- C9, counterexample.  The claim states that the reduction used for the
cache key keeps the first-seen maximum whenever two compaction points carry
exactly equal `createdAt` timestamps, for every input order.  But the JS
`reduce` is seeded with `undefined` and compares via
`current.createdAt > (latest?.createdAt ?? 0)`, so on a list whose
timestamps are all `0` the accumulator never becomes defined and the
function returns `null` instead of the first-positioned tie. -/
theorem c9_latest_boundary_counterexample :
    getLatestCompactionBoundaryId
        (some [{ boundaryMessageId := "b1", summaryMessageId := "s1", createdAt := 0 },
               { boundaryMessageId := "b2", summaryMessageId := "s2", createdAt := 0 }]) =
      none ∧
    getLatestCompactionBoundaryId
        (some [{ boundaryMessageId := "b1", summaryMessageId := "s1", createdAt := 0 },
               { boundaryMessageId := "b2", summaryMessageId := "s2", createdAt := 0 }]) ≠
      some "b1" := by
  constructor
  · rfl
  · decide

/-- The step function of the `getLatestCompactionBoundaryId` fold. -/
def latestBoundaryStep (latest : Option CompactionPoint) (current : CompactionPoint) :
    Option CompactionPoint :=
  if current.createdAt > ((latest.map CompactionPoint.createdAt).getD 0) then some current
  else latest

theorem getLatestCompactionBoundaryId_foldl (cps : List CompactionPoint) :
    getLatestCompactionBoundaryId (some cps) =
      if cps.isEmpty then none
      else (cps.foldl latestBoundaryStep none).map CompactionPoint.boundaryMessageId := rfl

/-- Folding over points strictly below a bound keeps the accumulator value
strictly below the bound. -/
theorem latestBoundaryStep_foldl_lt (l : List CompactionPoint) (acc : Option CompactionPoint)
    (v : Nat) (hacc : ((acc.map CompactionPoint.createdAt).getD 0) < v)
    (hl : ∀ q ∈ l, q.createdAt < v) :
    (((l.foldl latestBoundaryStep acc).map CompactionPoint.createdAt).getD 0) < v := by
  induction l generalizing acc with
  | nil => exact hacc
  | cons q qs ih =>
    simp only [List.foldl_cons]
    apply ih
    · unfold latestBoundaryStep
      split
      · exact hl q (List.mem_cons_self q qs)
      · exact hacc
    · intro x hx
      exact hl x (List.mem_cons_of_mem q hx)

/-- Once the accumulator holds a maximum, later points that are not strictly
greater never replace it. -/
theorem latestBoundaryStep_foldl_max (l : List CompactionPoint) (p : CompactionPoint)
    (hl : ∀ q ∈ l, q.createdAt ≤ p.createdAt) :
    l.foldl latestBoundaryStep (some p) = some p := by
  induction l with
  | nil => rfl
  | cons q qs ih =>
    simp only [List.foldl_cons]
    have hq : ¬ (q.createdAt > p.createdAt) := by
      have := hl q (List.mem_cons_self q qs)
      omega
    rw [show latestBoundaryStep (some p) q = some p by
      unfold latestBoundaryStep
      simp only [Option.map_some', Option.getD_some]
      exact if_neg hq]
    apply ih
    intro x hx
    exact hl x (List.mem_cons_of_mem q hx)

/-- C9, amended.  The reduction tolerates an empty or undefined list (it
returns `null`); and whenever the first point attaining the maximal
`createdAt` has a positive timestamp — every point before it strictly
smaller, every point after it no greater — the reduction returns that
first-seen maximum (so exact ties are resolved to the earlier-positioned
point).  The amendment adds the positivity proviso: if every timestamp is
`0` the `?? 0` seed makes the reduction return `null` instead. -/
theorem c9_latest_boundary_amended (l1 l2 : List CompactionPoint) (p : CompactionPoint)
    (hpos : 0 < p.createdAt)
    (h1 : ∀ q ∈ l1, q.createdAt < p.createdAt)
    (h2 : ∀ q ∈ l2, q.createdAt ≤ p.createdAt) :
    getLatestCompactionBoundaryId (some (l1 ++ p :: l2)) = some p.boundaryMessageId ∧
    getLatestCompactionBoundaryId none = none ∧
    getLatestCompactionBoundaryId (some []) = none := by
  refine ⟨?_, rfl, rfl⟩
  rw [getLatestCompactionBoundaryId_foldl]
  have hne : (l1 ++ p :: l2).isEmpty = false := by
    cases l1 <;> rfl
  rw [hne]
  simp only [Bool.false_eq_true, if_false, List.foldl_append, List.foldl_cons]
  have hl1 : ((l1.foldl latestBoundaryStep none).map CompactionPoint.createdAt).getD 0 <
      p.createdAt :=
    latestBoundaryStep_foldl_lt l1 none p.createdAt (by simpa using hpos) h1
  rw [show latestBoundaryStep (l1.foldl latestBoundaryStep none) p = some p by
    unfold latestBoundaryStep
    exact if_pos hl1]
  rw [latestBoundaryStep_foldl_max l2 p h2]
  rfl

/-- C9, witness for the amended theorem. -/
theorem c9_latest_boundary_amended_witness :
    getLatestCompactionBoundaryId
        (some [{ boundaryMessageId := "b0", summaryMessageId := "s0", createdAt := 3 },
               { boundaryMessageId := "b1", summaryMessageId := "s1", createdAt := 7 },
               { boundaryMessageId := "b2", summaryMessageId := "s2", createdAt := 7 }]) =
      some "b1" := by
  have h := c9_latest_boundary_amended
    [{ boundaryMessageId := "b0", summaryMessageId := "s0", createdAt := 3 }]
    [{ boundaryMessageId := "b2", summaryMessageId := "s2", createdAt := 7 }]
    { boundaryMessageId := "b1", summaryMessageId := "s1", createdAt := 7 }
    (by decide) (by decide) (by decide)
  exact h.1

/-! ## Claim C7: buildContext over one compaction point -/

/-- Concrete system message for the C7 scenario. -/
def c7sys : Message :=
  { id := "sys", role := Role.system, contents := "prompt", generating := false,
    isSummary := false, hasToolCalls := false }

/-- Concrete first user message for the C7 scenario. -/
def c7user1 : Message :=
  { id := "u1", role := Role.user, contents := "q1", generating := false,
    isSummary := false, hasToolCalls := false }

/-- Concrete first assistant message (the compaction boundary). -/
def c7asst1 : Message :=
  { id := "a1", role := Role.assistant, contents := "r1", generating := false,
    isSummary := false, hasToolCalls := false }

/-- Concrete second user message for the C7 scenario. -/
def c7user2 : Message :=
  { id := "u2", role := Role.user, contents := "q2", generating := false,
    isSummary := false, hasToolCalls := false }

/-- Concrete second assistant message for the C7 scenario. -/
def c7asst2 : Message :=
  { id := "a2", role := Role.assistant, contents := "r2", generating := false,
    isSummary := false, hasToolCalls := false }

/-- Concrete summary message (`isSummary = true`). -/
def c7sum1 : Message :=
  { id := "sum1", role := Role.assistant, contents := "summary", generating := false,
    isSummary := true, hasToolCalls := false }

/-- The single compaction point of the C7 scenario:
`{boundary: asst1.id, summary: sum1.id}`. -/
def c7point : CompactionPoint :=
  { boundaryMessageId := "a1", summaryMessageId := "sum1", createdAt := 10 }

/-- C7, counterexample.  Over the timeline `[sys, user1, asst1, user2,
asst2]` literally as stated — the summary message `sum1` is *not* a member
of the timeline — `buildContextForAI` cannot find `sum1.id` among the
messages (`findMessage` misses) and therefore returns `[sys, user2, asst2]`,
not the claimed `[sys, sum1, user2, asst2]`. -/
theorem c7_compaction_context_counterexample :
    buildContextForAI [c7sys, c7user1, c7asst1, c7user2, c7asst2] (some [c7point]) 2 none =
      [c7sys, c7user2, c7asst2] ∧
    buildContextForAI [c7sys, c7user1, c7asst1, c7user2, c7asst2] (some [c7point]) 2 none ≠
      [c7sys, c7sum1, c7user2, c7asst2] := by
  constructor
  · rfl
  · decide

/-- C7, amended.  When the timeline also contains the summary message (as it
does after a real compaction, which appends it), i.e. over
`[sys, user1, asst1, user2, asst2, sum1]` with the same compaction point,
the result is exactly `[sys, sum1, user2, asst2]`: the summary message
prepended to every non-summary message strictly after the boundary index,
with the system message re-inserted at the head. -/
theorem c7_compaction_context_amended :
    buildContextForAI [c7sys, c7user1, c7asst1, c7user2, c7asst2, c7sum1]
        (some [c7point]) 2 none =
      [c7sys, c7sum1, c7user2, c7asst2] := by
  rfl

/-! ## Claim C2: archiving the current timeline -/

/-- A concrete session with a non-empty live fork map and non-empty live
compaction points, used to refute C2. -/
def c2session : Session :=
  { id := "S", name := "sess", threadName := some "live",
    messages := [c7sys, c7user1, c7asst1],
    threads := none,
    messageForksHash :=
      some [("u1", { position := 0, lists := [{ id := "l1", messages := [] }],
                     createdAt := 1 })],
    compactionPoints := some [{ boundaryMessageId := "u1", summaryMessageId := "sm1",
                                createdAt := 5 }],
    settings := none }

/-- C2, counterexample.  Archiving via `refreshContextAndCreateNewThread`
("new thread"): the archived `SessionThread` carries *no* compaction points
(the snapshot omits the field), and the live `messageForksHash` and live
`compactionPoints` are left exactly as they were — neither is cleared —
although the starting session had both non-empty.  This refutes both the
"snapshots … its compaction points" and the "clears the live fork state and
the live compaction state" parts of the claim. -/
theorem c2_archive_counterexample :
    (refreshContextAndCreateNewThread c2session "t9" 100 "sys9" "dflt").threads =
      some [{ id := "t9", name := "live", messages := [c7sys, c7user1, c7asst1],
              createdAt := 100,
              messageForksHash := c2session.messageForksHash,
              compactionPoints := none }] ∧
    (refreshContextAndCreateNewThread c2session "t9" 100 "sys9" "dflt").compactionPoints =
      c2session.compactionPoints ∧
    (refreshContextAndCreateNewThread c2session "t9" 100 "sys9" "dflt").messageForksHash =
      c2session.messageForksHash ∧
    c2session.compactionPoints ≠ none ∧
    c2session.messageForksHash ≠ none := by
  refine ⟨rfl, rfl, rfl, ?_, ?_⟩ <;> decide

/-- The `SessionThread` snapshot all three archive operations build: live
timeline and live fork map, but no compaction points. -/
def archivedSnapshot (s : Session) (newThreadId : String) (now : Nat) : SessionThread :=
  { id := newThreadId, name := threadNameOrName s, messages := s.messages,
    createdAt := now, messageForksHash := s.messageForksHash, compactionPoints := none }

/-- C2, amended.  Each of the three archive operations appends a snapshot of
the live timeline and its fork map — but not its compaction points — as a
new `SessionThread` at the end of `threads` and replaces the live timeline
(`refreshContextAndCreateNewThread` with just a preserved system prompt;
`compressAndCreateThread` with an optional system prompt plus the summary as
a user message).  The live state is only partially cleared:
`refreshContextAndCreateNewThread` leaves both the live fork map and the
live compaction points unchanged, `newThreadFromHere` clears both, and
`compressAndCreateThread` clears the fork map but leaves the compaction
points unchanged. -/
theorem c2_archive_amended (s : Session) (tid : String) (now : Nat)
    (sysId dflt upTo summary userId : String) (b : Nat) (freshIds : Nat → String)
    (hb : (s.messages |> findIndex (fun m => decide (m.id = upTo))) = some b) :
    ((refreshContextAndCreateNewThread s tid now sysId dflt).threads =
        some ((s.threads.getD []) ++ [archivedSnapshot s tid now]) ∧
      (refreshContextAndCreateNewThread s tid now sysId dflt).messageForksHash =
        s.messageForksHash ∧
      (refreshContextAndCreateNewThread s tid now sysId dflt).compactionPoints =
        s.compactionPoints ∧
      (∃ sp, (refreshContextAndCreateNewThread s tid now sysId dflt).messages = [sp] ∧
        sp.role = Role.system)) ∧
    ((newThreadFromHere s upTo tid now freshIds).threads =
        some ((s.threads.getD []) ++ [archivedSnapshot s tid now]) ∧
      (newThreadFromHere s upTo tid now freshIds).messageForksHash = none ∧
      (newThreadFromHere s upTo tid now freshIds).compactionPoints = none ∧
      (newThreadFromHere s upTo tid now freshIds).messages =
        mapIdx (fun i m => { m with id := freshIds i }) (s.messages.take (b + 1))) ∧
    ((compressAndCreateThread s summary tid now sysId userId).threads =
        some ((s.threads.getD []) ++ [archivedSnapshot s tid now]) ∧
      (compressAndCreateThread s summary tid now sysId userId).messageForksHash = none ∧
      (compressAndCreateThread s summary tid now sysId userId).compactionPoints =
        s.compactionPoints) := by
  refine ⟨⟨rfl, rfl, rfl, ?_⟩, ⟨?_, ?_, ?_, ?_⟩, rfl, rfl, rfl⟩
  · unfold refreshContextAndCreateNewThread
    cases hsp : s.messages.find? (fun m => decide (m.role = Role.system)) with
    | none => exact ⟨_, rfl, rfl⟩
    | some sp => exact ⟨_, rfl, rfl⟩
  all_goals
    unfold newThreadFromHere
    rw [hb]
    try rfl

/-- C2, witness for the amended theorem. -/
theorem c2_archive_amended_witness :
    (refreshContextAndCreateNewThread c2session "t9" 100 "sys9" "dflt").compactionPoints =
      c2session.compactionPoints ∧
    (newThreadFromHere c2session "u1" "t9" 100 (fun i => toString i)).compactionPoints =
      none := by
  have h := c2_archive_amended c2session "t9" 100 "sys9" "dflt" "u1" "sum" "us" 1
    (fun i => toString i) (by decide)
  exact ⟨h.1.2.2.1, h.2.1.2.2.1⟩

/-! ## Claim C3: switchThread -/

/-- A concrete archived thread that carries its own compaction points. -/
def c3target : SessionThread :=
  { id := "T1", name := "older", messages := [c7user2],
    createdAt := 3, messageForksHash := none,
    compactionPoints := some [{ boundaryMessageId := "x", summaryMessageId := "y",
                                createdAt := 7 }] }

/-- A concrete session whose live compaction points differ from the target
thread's stored ones. -/
def c3session : Session :=
  { id := "S", name := "sess", threadName := some "live",
    messages := [c7sys, c7user1],
    threads := some [c3target],
    messageForksHash := none,
    compactionPoints := some [{ boundaryMessageId := "a", summaryMessageId := "b",
                                createdAt := 9 }],
    settings := none }

/-- C3, counterexample.  `switchThread` swaps the timeline and the fork map,
but *not* the compaction state: after switching to a thread that stores its
own compaction points, the live `compactionPoints` are still the previous
live ones (not the target's), and the newly archived entry carries no
compaction points at all (the old live compaction state is not archived). -/
theorem c3_switchThread_counterexample :
    (switchThread c3session "T1" "A1" 50).messages = c3target.messages ∧
    (switchThread c3session "T1" "A1" 50).compactionPoints = c3session.compactionPoints ∧
    c3target.compactionPoints ≠ c3session.compactionPoints ∧
    ((switchThread c3session "T1" "A1" 50).threads.getD []).map
        SessionThread.compactionPoints = [none] := by
  refine ⟨rfl, rfl, ?_, rfl⟩
  decide

/-- C3, amended.  For every session containing a thread with the target id,
`switchThread` makes the target's stored timeline, thread name and fork map
live, and appends the previously live timeline together with its fork map
(under a fresh archive id, without compaction points) to `threads` (with the
target entry removed); the compaction state is *not* swapped: the live
`compactionPoints` remain those of the previously live timeline. -/
theorem c3_switchThread_amended (s : Session) (ts : List SessionThread)
    (tid aid : String) (now : Nat) (target : SessionThread)
    (hts : s.threads = some ts)
    (hfind : ts.find? (fun h => decide (h.id = tid)) = some target) :
    (switchThread s tid aid now).messages = target.messages ∧
    (switchThread s tid aid now).messageForksHash = target.messageForksHash ∧
    (switchThread s tid aid now).threadName = some target.name ∧
    (switchThread s tid aid now).threads =
      some ((ts.filter (fun h => decide (h.id ≠ tid))) ++ [archivedSnapshot s aid now]) ∧
    (switchThread s tid aid now).compactionPoints = s.compactionPoints := by
  simp [switchThread, hts, hfind, archivedSnapshot]

/-- C3, witness for the amended theorem. -/
theorem c3_switchThread_amended_witness :
    (switchThread c3session "T1" "A1" 50).messages = c3target.messages ∧
    (switchThread c3session "T1" "A1" 50).compactionPoints = c3session.compactionPoints := by
  have h := c3_switchThread_amended c3session [c3target] "T1" "A1" 50 c3target rfl (by decide)
  exact ⟨h.1, h.2.2.2.2⟩


/-! ## Claim C8: compaction failure leaves the session unmodified -/

/-- C8.  For every environment (every combination of outcomes of the awaited
external calls): when the summarization collaborator was invoked and
reported failure, the orchestrator returns an error result and commits no
session mutation; a thrown exception at the summarization or update step is
caught (the body still returns a result object instead of crashing) with no
mutation; any unsuccessful result goes with no mutation at all; and the only
possible mutation is the single atomic patch `compactionCommitPatch`, which
appends the summary message and the compaction point together, never leaving
the session partially mutated. -/
theorem c8_compaction_failure_no_mutation (env : CompactionEnv) :
    (∀ sr, env.summaryResult = Except.ok sr →
      (runCompactionStreamingBody env).summaryCalled = true →
      (sr.success = false ∨ sr.summary.getD "" = "") →
      (runCompactionStreamingBody env).result.success = false ∧
      (runCompactionStreamingBody env).result.error.isSome = true ∧
      (runCompactionStreamingBody env).committed = none) ∧
    (∀ e, env.summaryResult = Except.error e →
      (runCompactionStreamingBody env).summaryCalled = true →
      (runCompactionStreamingBody env).result.success = false ∧
      (runCompactionStreamingBody env).committed = none) ∧
    (∀ e, env.updateResult = Except.error e →
      (runCompactionStreamingBody env).committed = none ∧
      (runCompactionStreamingBody env).result.compacted = false) ∧
    ((runCompactionStreamingBody env).result.success = false →
      (runCompactionStreamingBody env).committed = none) ∧
    (∀ sm cp, (runCompactionStreamingBody env).committed = some (sm, cp) →
      (runCompactionStreamingBody env).result =
        { success := true, compacted := true, error := none,
          summaryMessageId := some sm.id } ∧
      sm.isSummary = true ∧ cp.summaryMessageId = sm.id ∧
      (∀ cur : Session, compactionCommitPatch sm cp (some cur) =
        Except.ok { cur with
                    messages := cur.messages ++ [sm],
                    compactionPoints :=
                      some ((cur.compactionPoints.getD []) ++ [cp]) })) := by
  unfold runCompactionStreamingBody
  cases hgs : env.getSession with
  | error e => simp [hgs]
  | ok osess =>
    cases osess with
    | none => simp [hgs]
    | some session =>
      cases hmid : resolveModelId session env.globalDefaultModelId with
      | none => simp [hgs, hmid]
      | some mid =>
        cases hms : env.getSessionSettings with
        | error e => simp [hgs, hmid, hms]
        | ok ms =>
          cases hsr : env.summaryResult with
          | error e => simp [hgs, hmid, hms, hsr]
          | ok sr =>
            by_cases hfail : sr.success = false ∨ sr.summary.getD "" = ""
            · simp [hgs, hmid, hms, hsr, hfail]
            · simp only [hgs, hmid, hms, hsr, if_neg hfail]
              cases hlast : session.messages.reverse.find? (fun m => !m.isSummary) with
              | none => simp [hlast]
              | some lastMsg =>
                cases hup : env.updateResult with
                | error e => simp [hlast, hup]
                | ok u =>
                  simp only [hlast, hup]
                  refine ⟨?_, ?_, ?_, ?_, ?_⟩
                  · intro sr2 hsr2 _ hf2
                    cases hsr2
                    exact absurd hf2 hfail
                  · intro e he
                    exact Except.noConfusion he
                  · intro e he
                    exact Except.noConfusion he
                  · intro hfalse
                    simp at hfalse
                  · intro sm cp hc
                    simp only [Option.some.injEq, Prod.mk.injEq] at hc
                    obtain ⟨hsm, hcp⟩ := hc
                    subst hsm
                    subst hcp
                    exact ⟨rfl, rfl, rfl, fun cur => rfl⟩

/-- Default-ish session settings used in concrete compaction scenarios. -/
def c8settings : SessionSettings :=
  { highlightContextRoles := none, autoCompaction := none,
    maxContextMessageCount := none, provider := none, modelId := none }

/-- A concrete environment in which the summarization collaborator reports
failure. -/
def c8env : CompactionEnv :=
  { getSession := Except.ok (some c2session),
    getSessionSettings := Except.ok c8settings,
    globalDefaultModelId := some "m-default",
    summaryResult := Except.ok { success := false, summary := none, error := some "boom" },
    updateResult := Except.ok (),
    summaryMessageIdFresh := "sum9",
    now := 42 }

/-- C8, witness: in the concrete failing environment the orchestrator
returns an error result and commits nothing. -/
theorem c8_compaction_failure_no_mutation_witness :
    (runCompactionStreamingBody c8env).result.success = false ∧
    (runCompactionStreamingBody c8env).committed = none := by
  have h := (c8_compaction_failure_no_mutation c8env).1
    { success := false, summary := none, error := some "boom" } rfl (by decide) (Or.inl rfl)
  exact ⟨h.1, h.2.2⟩

/-! ## Claim C5: at most one concurrent compaction per session

The check-and-mark of `runCompactionWithStreaming` is synchronous — there is
no `await` between `ongoingCompactions.has(sessionId)` and
`ongoingCompactions.add(sessionId)` — so under the single-threaded
cooperative scheduler it is one atomic step, modelled by `compactionGuard`.
A second call for the same session "issued before the first resolves" runs
its guard at a point where the first call's marker is in the set (the body's
suspension points never touch the set; only the `finally` removes the
marker, and that is what "resolving" is), i.e. against the marked set
`sessionId :: S`. -/

/-- C5.  For every starting in-flight set not containing the session and
every environment in which the admitted body reaches the summarization step
(session found, model configured, merged settings read): the first call's
atomic check-and-mark admits it and marks the session; any second call for
the same session issued before the first resolves is rejected by the guard
and returns `{success: true, compacted: false}` without invoking the
summarization collaborator and without touching the in-flight set; the
admitted call does invoke the summarization collaborator (whatever the
collaborator then does); and for *every* environment — success, failure or
exception — a full run removes the in-flight marker again on exit. -/
theorem c5_single_compaction_guard (S0 : List String) (sid : String)
    (env1 : CompactionEnv) (sess : Session) (mid : String) (ms : SessionSettings)
    (h0 : sid ∉ S0)
    (hgs : env1.getSession = Except.ok (some sess))
    (hmid : resolveModelId sess env1.globalDefaultModelId = some mid)
    (hms : env1.getSessionSettings = Except.ok ms) :
    compactionGuard S0 sid = some (sid :: S0) ∧
    (∀ env2, runCompactionWithStreaming (sid :: S0) sid env2 =
      ({ result := { success := true, compacted := false, error := none,
                     summaryMessageId := none },
         summaryCalled := false, committed := none },
       sid :: S0)) ∧
    (runCompactionStreamingBody env1).summaryCalled = true ∧
    (∀ env, (runCompactionWithStreaming S0 sid env).2 = S0) := by
  refine ⟨?_, ?_, ?_, ?_⟩
  · unfold compactionGuard
    exact if_neg h0
  · intro env2
    unfold runCompactionWithStreaming compactionGuard
    rw [if_pos (List.mem_cons_self sid S0)]
  · unfold runCompactionStreamingBody
    simp only [hgs, hmid, hms]
    cases hsr : env1.summaryResult with
    | error e => simp [hsr]
    | ok sr =>
      simp only [hsr]
      by_cases hfail : sr.success = false ∨ sr.summary.getD "" = ""
      · rw [if_pos hfail]
      · rw [if_neg hfail]
        cases hlast : sess.messages.reverse.find? (fun m => !m.isSummary) with
        | none => simp [hlast]
        | some lastMsg =>
          simp only [hlast]
          cases hup : env1.updateResult with
          | error e => simp [hup]
          | ok u => simp [hup]
  · intro env
    unfold runCompactionWithStreaming compactionGuard
    rw [if_neg h0]
    unfold compactionRelease
    simp [List.erase_cons_head]

/-- A concrete environment whose admitted body reaches the summarization
step and succeeds. -/
def c5env : CompactionEnv :=
  { getSession := Except.ok (some c2session),
    getSessionSettings := Except.ok c8settings,
    globalDefaultModelId := some "m-default",
    summaryResult := Except.ok { success := true, summary := some "short", error := none },
    updateResult := Except.ok (),
    summaryMessageIdFresh := "sum9",
    now := 42 }

/-- C5, witness: with an empty in-flight set, session `"S"` and the
concrete environment, the guard admits, the racing second call sees the
marker and no-ops, the admitted call summarizes, and the marker is gone
afterwards. -/
theorem c5_single_compaction_guard_witness :
    compactionGuard [] "S" = some ["S"] ∧
    (∀ env2, runCompactionWithStreaming ["S"] "S" env2 =
      ({ result := { success := true, compacted := false, error := none,
                     summaryMessageId := none },
         summaryCalled := false, committed := none },
       ["S"])) ∧
    (runCompactionStreamingBody c5env).summaryCalled = true ∧
    (∀ env, (runCompactionWithStreaming [] "S" env).2 = []) := by
  exact c5_single_compaction_guard [] "S" c5env c2session "m-default" c8settings
    (by decide) rfl rfl rfl

/-! ## Claim C1: the system prompt and the last user message survive role
filtering -/

theorem mem_dropOldToolMessages (l : List Message) (n : Nat) (m : Message)
    (h : m ∈ dropOldToolMessages l n) : m ∈ l := by
  induction l generalizing n with
  | nil => simp [dropOldToolMessages] at h
  | cons x xs ih =>
    by_cases ht : x.hasToolCalls
    · cases n with
      | zero =>
        simp only [dropOldToolMessages, ht, if_true] at h
        rcases List.mem_cons.mp h with h1 | h2
        · exact h1 ▸ List.mem_cons_self x xs
        · exact List.mem_cons_of_mem x (ih 0 h2)
      | succ k =>
        simp only [dropOldToolMessages, ht, if_true] at h
        exact List.mem_cons_of_mem x (ih k h)
    · simp only [dropOldToolMessages, ht, if_false] at h
      rcases List.mem_cons.mp h with h1 | h2
      · exact h1 ▸ List.mem_cons_self x xs
      · exact List.mem_cons_of_mem x (ih n h2)

theorem mem_cleanToolCalls (l : List Message) (k : Nat) (m : Message)
    (h : m ∈ cleanToolCalls l k) : m ∈ l :=
  mem_dropOldToolMessages l _ m h

/-- Every message in the context built by `buildContextForAI` comes from the
input timeline: the function only filters, slices and re-inserts existing
messages. -/
theorem mem_buildContextForAI (messages : List Message)
    (compactionPoints : Option (List CompactionPoint)) (k : Nat)
    (ss : Option SessionSettings) (m : Message)
    (h : m ∈ buildContextForAI messages compactionPoints k ss) : m ∈ messages := by
  have hsub : ∀ x ∈ messages.filter (fun y => !y.generating), x ∈ messages :=
    fun x hx => (List.mem_filter.mp hx).1
  have hafter : ∀ (n : Nat) (x : Message),
      x ∈ ((messages.filter (fun y => !y.generating)).drop n).filter
        (fun y => !y.isSummary) → x ∈ messages :=
    fun n x hx => hsub x (List.drop_subset _ _ (List.mem_filter.mp hx).1)
  simp only [buildContextForAI] at h
  repeat' split at h
  all_goals try (exfalso; exact absurd h (List.not_mem_nil m))
  all_goals try (replace h := (List.mem_filter.mp h).1)
  all_goals replace h := mem_cleanToolCalls _ _ m h
  all_goals
    first
      | exact hsub m h
      | exact hafter _ m h
      | (rcases List.mem_cons.mp h with h1 | h1
         · exact hsub _ (h1 ▸ List.mem_of_find?_eq_some (by assumption))
         · first
             | exact hafter _ m h1
             | (rcases List.mem_cons.mp h1 with h2 | h2
                · exact hsub _ (h2 ▸ List.mem_of_find?_eq_some (by assumption))
                · exact hafter _ m h2))

/-- The head-insert step of the survival block: the target message itself is
in the result, whether it was already present (by id, under unique ids) or
prepended. -/
theorem survival_insert_head (msgs base : List Message) (t : Message)
    (huniq : (msgs.map Message.id).Nodup)
    (hbase : ∀ x ∈ base, x ∈ msgs) (ht : t ∈ msgs) :
    t ∈ (if base.any (fun x => decide (x.id = t.id)) then base else t :: base) := by
  by_cases hany : base.any (fun x => decide (x.id = t.id)) = true
  · rw [if_pos hany]
    obtain ⟨x, hx, hxid⟩ := List.any_eq_true.mp hany
    have hxid2 : x.id = t.id := of_decide_eq_true hxid
    have : x = t := List.inj_on_of_nodup_map huniq (hbase x hx) ht hxid2
    exact this ▸ hx
  · rw [if_neg hany]
    exact List.mem_cons_self t base

/-- The tail-append step of the survival block. -/
theorem survival_insert_tail (msgs base : List Message) (t : Message)
    (huniq : (msgs.map Message.id).Nodup)
    (hbase : ∀ x ∈ base, x ∈ msgs) (ht : t ∈ msgs) :
    t ∈ (if base.any (fun x => decide (x.id = t.id)) then base else base ++ [t]) := by
  by_cases hany : base.any (fun x => decide (x.id = t.id)) = true
  · rw [if_pos hany]
    obtain ⟨x, hx, hxid⟩ := List.any_eq_true.mp hany
    have hxid2 : x.id = t.id := of_decide_eq_true hxid
    have : x = t := List.inj_on_of_nodup_map huniq (hbase x hx) ht hxid2
    exact this ▸ hx
  · rw [if_neg hany]
    exact List.mem_append_right base (List.mem_cons_self t [])

/-- Membership survives the tail-append step. -/
theorem survival_tail_preserves (base : List Message) (t x : Message) (hx : x ∈ base) :
    x ∈ (if base.any (fun y => decide (y.id = t.id)) then base else base ++ [t]) := by
  by_cases hany : base.any (fun y => decide (y.id = t.id)) = true
  · rw [if_pos hany]; exact hx
  · rw [if_neg hany]; exact List.mem_append_left [t] hx

/-- C1.  Whenever a role filter is configured, the context-selection stage
of `genMessageContext` contains the first system message of the input
timeline (if one exists) and the last user message of the input timeline (if
one exists), whatever the configured allowed-role set and the compaction
points are — the survival re-insert block guarantees it even when those
roles are excluded by the filter.  Ids are assumed unique in the timeline
(the Timeline data-model invariant). -/
theorem c1_role_filter_survival (settings : SessionSettings) (roles : List Role)
    (msgs : List Message) (cps : Option (List CompactionPoint))
    (hroles : settings.highlightContextRoles = some roles)
    (huniq : (msgs.map Message.id).Nodup) :
    (∀ sm, msgs.find? (fun m => decide (m.role = Role.system)) = some sm →
       sm ∈ genMessageContextMessages settings msgs cps) ∧
    (∀ um, msgs.reverse.find? (fun m => decide (m.role = Role.user)) = some um →
       um ∈ genMessageContextMessages settings msgs cps) := by
  unfold genMessageContextMessages
  simp only [hroles]
  -- the pre-survival context is always a subset of the timeline
  have hbase : ∀ x ∈ (if 0 < (cps.getD []).length then
      buildContextForAI msgs cps 2 (some settings)
      else msgs.filter (fun m => roles.contains m.role)), x ∈ msgs := by
    intro x hx
    by_cases hcp : 0 < (cps.getD []).length
    · rw [if_pos hcp] at hx
      exact mem_buildContextForAI msgs cps 2 (some settings) x hx
    · rw [if_neg hcp] at hx
      exact (List.mem_filter.mp hx).1
  constructor
  · intro sm hsm
    simp only [hsm]
    have hsmem : sm ∈ msgs := List.mem_of_find?_eq_some hsm
    have hhead := survival_insert_head msgs _ sm huniq hbase hsmem
    cases hum : msgs.reverse.find? (fun m => decide (m.role = Role.user)) with
    | none => exact hhead
    | some um => exact survival_tail_preserves _ um sm hhead
  · intro um hum
    simp only [hum]
    have humem : um ∈ msgs := List.mem_reverse.mp (List.mem_of_find?_eq_some hum)
    have hbase2 : ∀ x ∈ (match msgs.find? (fun m => decide (m.role = Role.system)) with
        | some sm =>
          if (if 0 < (cps.getD []).length then
                buildContextForAI msgs cps 2 (some settings)
              else msgs.filter (fun m => roles.contains m.role)).any
              (fun x => decide (x.id = sm.id)) then
            (if 0 < (cps.getD []).length then
              buildContextForAI msgs cps 2 (some settings)
            else msgs.filter (fun m => roles.contains m.role))
          else sm :: (if 0 < (cps.getD []).length then
              buildContextForAI msgs cps 2 (some settings)
            else msgs.filter (fun m => roles.contains m.role))
        | none =>
          (if 0 < (cps.getD []).length then
            buildContextForAI msgs cps 2 (some settings)
          else msgs.filter (fun m => roles.contains m.role))), x ∈ msgs := by
      intro x hx
      cases hsm : msgs.find? (fun m => decide (m.role = Role.system)) with
      | none =>
        simp only [hsm] at hx
        exact hbase x hx
      | some sm =>
        simp only [hsm] at hx
        by_cases hany : (if 0 < (cps.getD []).length then
              buildContextForAI msgs cps 2 (some settings)
            else msgs.filter (fun m => roles.contains m.role)).any
            (fun y => decide (y.id = sm.id)) = true
        · rw [if_pos hany] at hx
          exact hbase x hx
        · rw [if_neg hany] at hx
          rcases List.mem_cons.mp hx with h1 | h1
          · exact h1 ▸ List.mem_of_find?_eq_some hsm
          · exact hbase x h1
    exact survival_insert_tail msgs _ um huniq hbase2 humem

/-- Session settings whose role filter excludes both `system` and `user`. -/
def c1settings : SessionSettings :=
  { highlightContextRoles := some [Role.assistant], autoCompaction := none,
    maxContextMessageCount := none, provider := none, modelId := none }

/-- C1, witness: with the role filter `[assistant]` — which excludes both
the system and the user role — over the timeline `[sys, user1, asst1]`, the
built context still contains the system message and the last user
message. -/
theorem c1_role_filter_survival_witness :
    c7sys ∈ genMessageContextMessages c1settings [c7sys, c7user1, c7asst1] none ∧
    c7user1 ∈ genMessageContextMessages c1settings [c7sys, c7user1, c7asst1] none := by
  have h := c1_role_filter_survival c1settings [Role.assistant]
    [c7sys, c7user1, c7asst1] none rfl (by decide)
  exact ⟨h.1 c7sys rfl, h.2 c7user1 rfl⟩

/-! ## Claim C4: the fork-entry invariant -/

/-- The fork-entry invariant of the data model: at least one branch, the
position in bounds, and the branch record at the live position stored
empty (the live branch content is materialized only inline). -/
def forkEntryInvariant (e : MessageForkEntry) : Prop :=
  1 ≤ e.lists.length ∧ e.position < e.lists.length ∧
    (e.lists.get? e.position).map ForkList.messages = some []

instance (e : MessageForkEntry) : Decidable (forkEntryInvariant e) := by
  unfold forkEntryInvariant
  infer_instance

/-- The invariant over every entry of the session's fork map. -/
def sessionForksInvariant (s : Session) : Prop :=
  ∀ p ∈ (s.messageForksHash.getD []), forkEntryInvariant p.2

instance (s : Session) : Decidable (sessionForksInvariant s) := by
  unfold sessionForksInvariant
  exact List.decidableBAll _ _

/-- One Fork Engine operation, with the fresh uuids and timestamps it
consumes as payload. -/
inductive ForkOp where
  | create (anchor freshEntryListId storedListId newBranchId : String) (now : Nat)
  | switch (anchor : String) (direction : ForkDirection)
  | switchTo (anchor : String) (targetPosition : Nat)
  | delete (anchor : String)
  | expand (anchor : String)

/-- Dispatch a Fork Engine operation on a session. -/
def applyForkOp (s : Session) : ForkOp → Session
  | ForkOp.create anchor f st nb now => createNewFork s anchor f st nb now
  | ForkOp.switch anchor d => switchFork s anchor d
  | ForkOp.switchTo anchor t => switchForkToPosition s anchor t
  | ForkOp.delete anchor => deleteFork s anchor
  | ForkOp.expand anchor => expandFork s anchor

/-- `computeNextMessageForksHash` preserves the per-entry invariant: the
surviving entries are either old entries or the new one. -/
theorem computeNext_invariant (cur : Option ForkMap) (k : String)
    (next : Option MessageForkEntry)
    (hcur : ∀ p ∈ cur.getD [], forkEntryInvariant p.2)
    (hnext : ∀ e, next = some e → forkEntryInvariant e) :
    ∀ p ∈ (computeNextMessageForksHash cur k next).getD [], forkEntryInvariant p.2 := by
  intro p hp
  cases next with
  | some e =>
    simp only [computeNextMessageForksHash, Option.getD_some] at hp
    rcases List.mem_append.mp hp with h1 | h1
    · exact hcur p (List.mem_filter.mp h1).1
    · rcases List.mem_singleton.mp h1 with rfl
      exact hnext e rfl
  | none =>
    cases cur with
    | none => simp [computeNextMessageForksHash] at hp
    | some m =>
      simp only [computeNextMessageForksHash] at hp
      by_cases hlk : (m.lookup k).isNone
      · rw [if_pos hlk] at hp
        exact hcur p hp
      · rw [if_neg hlk] at hp
        by_cases hrest : (m.filter (fun q => decide (q.1 ≠ k))).isEmpty
        · rw [if_pos hrest] at hp
          simp at hp
        · rw [if_neg hrest] at hp
          simp only [Option.getD_some] at hp
          exact hcur p (List.mem_filter.mp hp).1

/-- The fork entry built by the lower half of `switchForkInMessages`
satisfies the invariant for any pruning flag `b`, working list `U` and
adjusted position `A`, as long as `U` is non-empty: the new position is a
remainder modulo `U.length`, and the branch record stored there is emptied
by the rewrite (the store-tail condition never fires at the new position
since it requires `A ≠ newPosition`). -/
theorem switch_entry_invariant (e : MessageForkEntry) (tail : List Message) (b : Bool)
    (U : List ForkList) (A : Nat) (d : ForkDirection) (hU : 0 < U.length) :
    forkEntryInvariant
      { e with
        position :=
          match d with
          | ForkDirection.next => (A + 1) % U.length
          | ForkDirection.prev => (A + U.length - 1) % U.length,
        lists := mapIdx (fun index list =>
          if b = false ∧ index = A ∧ A ≠ (match d with
              | ForkDirection.next => (A + 1) % U.length
              | ForkDirection.prev => (A + U.length - 1) % U.length) then
            { list with messages := tail }
          else if index = (match d with
              | ForkDirection.next => (A + 1) % U.length
              | ForkDirection.prev => (A + U.length - 1) % U.length) then
            { list with messages := [] }
          else list) U } := by
  cases d with
  | next =>
    refine ⟨?_, ?_, ?_⟩
    · simp only [length_mapIdx]; omega
    · simp only [length_mapIdx]
      exact Nat.mod_lt _ hU
    · simp only []
      rw [get?_mapIdx]
      obtain ⟨bl, hbl⟩ : ∃ bl, U.get? ((A + 1) % U.length) = some bl := by
        rw [List.get?_eq_get (Nat.mod_lt _ hU)]
        exact ⟨_, rfl⟩
      rw [hbl]
      simp only [Option.map_some']
      rw [if_neg (by rintro ⟨-, h1, h2⟩; exact h2 h1.symm)]
      simp
  | prev =>
    refine ⟨?_, ?_, ?_⟩
    · simp only [length_mapIdx]; omega
    · simp only [length_mapIdx]
      exact Nat.mod_lt _ hU
    · simp only []
      rw [get?_mapIdx]
      obtain ⟨bl, hbl⟩ : ∃ bl, U.get? ((A + U.length - 1) % U.length) = some bl := by
        rw [List.get?_eq_get (Nat.mod_lt _ hU)]
        exact ⟨_, rfl⟩
      rw [hbl]
      simp only [Option.map_some']
      rw [if_neg (by rintro ⟨-, h1, h2⟩; exact h2 h1.symm)]
      simp

/-- The fork entry produced by `switchForkInMessages` (when the entry does
not collapse) satisfies the invariant, provided the entry had at least one
branch. -/
theorem switchForkInMessages_fork_invariant (msgs : List Message) (e : MessageForkEntry)
    (k : String) (d : ForkDirection) (r : SwitchForkResult)
    (hlen : 0 < e.lists.length)
    (h : switchForkInMessages msgs e k d = some r) :
    ∀ e2, r.fork = some e2 → forkEntryInvariant e2 := by
  intro e2 h2
  unfold switchForkInMessages at h
  cases hidx : findIndex (fun m => decide (m.id = k)) msgs with
  | none =>
    rw [hidx] at h
    cases h
  | some i =>
    simp only [hidx] at h
    split at h
    · rename_i hcond
      cases h
      cases h2
    · rename_i hcond
      cases h
      cases h2
      refine switch_entry_invariant e _ _ _ _ d ?_
      by_cases hemp : (msgs.drop (i + 1)).isEmpty
      · have hplen : ¬ (e.lists.eraseIdx e.position).length ≤ 1 := by
          intro hle
          exact hcond ⟨hemp, hle⟩
        rw [if_pos hemp]
        omega
      · rw [if_neg hemp]
        exact hlen

/-- The fork entry produced by `switchForkInMessagesToPosition` satisfies
the invariant (the target position is bounds-checked by the function
itself). -/
theorem switchForkInMessagesToPosition_fork_invariant (msgs : List Message)
    (e : MessageForkEntry) (k : String) (t : Nat) (r : SwitchForkResult)
    (h : switchForkInMessagesToPosition msgs e k t = some r) :
    ∀ e2, r.fork = some e2 → forkEntryInvariant e2 := by
  intro e2 h2
  unfold switchForkInMessagesToPosition at h
  cases hidx : findIndex (fun m => decide (m.id = k)) msgs with
  | none =>
    rw [hidx] at h
    cases h
  | some i =>
    simp only [hidx] at h
    split at h
    · cases h
    · rename_i hge
      cases h
      cases h2
      have hlt : t < e.lists.length := Nat.lt_of_not_le hge
      refine ⟨by rw [length_mapIdx]; omega, by rw [length_mapIdx]; exact hlt, ?_⟩
      rw [get?_mapIdx]
      obtain ⟨bl, hbl⟩ : ∃ bl, e.lists.get? t = some bl := by
        rw [List.get?_eq_get hlt]
        exact ⟨_, rfl⟩
      rw [hbl]
      simp only [Option.map_some']
      rw [if_neg (by rintro ⟨h1, h2⟩; exact h2 h1.symm)]
      simp

/-- The fork entry produced by `createForkTransform` satisfies the
invariant: the fresh empty branch is appended at the new position. -/
theorem createForkTransform_fork_invariant (kid sid nid : String) (msgs : List Message)
    (e : MessageForkEntry) (r : ForkTransformResult)
    (h : createForkTransform kid sid nid msgs e = some r) :
    ∀ e2, r.forkEntry = some e2 → forkEntryInvariant e2 := by
  intro e2 h2
  unfold createForkTransform at h
  cases hidx : findIndex (fun m => decide (m.id = kid)) msgs with
  | none =>
    rw [hidx] at h
    cases h
  | some i =>
    simp only [hidx] at h
    split at h
    · cases h
    · cases h
      cases h2
      refine ⟨?_, ?_, ?_⟩
      · simp [length_mapIdx]
      · simp [length_mapIdx]
      · rw [List.get?_append_right (by simp [length_mapIdx])]
        simp [length_mapIdx]

/-- The fork entry produced by `deleteForkTransform` satisfies the
invariant: the position clamps into the remaining lists and the branch
spliced inline is stored empty. -/
theorem deleteForkTransform_fork_invariant (kid : String) (msgs : List Message)
    (e : MessageForkEntry) (r : ForkTransformResult)
    (h : deleteForkTransform kid msgs e = some r) :
    ∀ e2, r.forkEntry = some e2 → forkEntryInvariant e2 := by
  intro e2 h2
  unfold deleteForkTransform at h
  cases hidx : findIndex (fun m => decide (m.id = kid)) msgs with
  | none =>
    rw [hidx] at h
    cases h
  | some i =>
    simp only [hidx] at h
    split at h
    · cases h
      cases h2
    · rename_i hne
      cases h
      cases h2
      have hpos : 0 < (e.lists.eraseIdx e.position).length := by
        cases hcs : e.lists.eraseIdx e.position with
        | nil => rw [hcs] at hne; exact absurd rfl hne
        | cons a as => simp [hcs]
      have hlt : min e.position ((e.lists.eraseIdx e.position).length - 1) <
          (e.lists.eraseIdx e.position).length := by
        have := Nat.min_le_right e.position ((e.lists.eraseIdx e.position).length - 1)
        omega
      refine ⟨by rw [length_mapIdx]; omega, by rw [length_mapIdx]; exact hlt, ?_⟩
      rw [get?_mapIdx]
      obtain ⟨bl, hbl⟩ : ∃ bl, (e.lists.eraseIdx e.position).get?
          (min e.position ((e.lists.eraseIdx e.position).length - 1)) = some bl := by
        rw [List.get?_eq_get hlt]
        exact ⟨_, rfl⟩
      rw [hbl]
      simp

/-- `expandFork` always destroys the entry, so the produced entry trivially
satisfies the invariant (there is none). -/
theorem expandForkTransform_fork_invariant (kid : String) (msgs : List Message)
    (e : MessageForkEntry) (r : ForkTransformResult)
    (h : expandForkTransform kid msgs e = some r) :
    ∀ e2, r.forkEntry = some e2 → forkEntryInvariant e2 := by
  intro e2 h2
  unfold expandForkTransform at h
  cases hidx : findIndex (fun m => decide (m.id = kid)) msgs with
  | none =>
    rw [hidx] at h
    cases h
  | some i =>
    simp only [hidx] at h
    split at h
    · cases h
      cases h2
    · cases h
      cases h2

/-- The fork entry coming out of the thread scan of `buildSwitchForkPatch`
is produced by `switchForkInMessages` on some thread's timeline. -/
theorem switchForkInThreads_fork (ts : List SessionThread) (e : MessageForkEntry)
    (k : String) (d : ForkDirection) (ts2 : List SessionThread)
    (f : Option MessageForkEntry) (h : switchForkInThreads ts e k d = some (ts2, f)) :
    ∃ msgs r, switchForkInMessages msgs e k d = some r ∧ r.fork = f := by
  induction ts generalizing ts2 f with
  | nil => cases h
  | cons t rest ih =>
    unfold switchForkInThreads at h
    cases hr : switchForkInMessages t.messages e k d with
    | some r =>
      simp only [hr] at h
      cases h
      exact ⟨t.messages, r, hr, rfl⟩
    | none =>
      simp only [hr] at h
      cases hrec : switchForkInThreads rest e k d with
      | none =>
        rw [hrec] at h
        cases h
      | some p =>
        obtain ⟨ts3, f3⟩ := p
        rw [hrec] at h
        cases h
        exact ih _ _ hrec

/-- The fork entry coming out of the thread scan of `applyForkTransform` is
produced by the transform on some thread's timeline. -/
theorem applyForkTransformThreads_fork (ts : List SessionThread)
    (tt : List Message → Option ForkTransformResult) (ts2 : List SessionThread)
    (f : Option MessageForkEntry) (h : applyForkTransformThreads ts tt = some (ts2, f)) :
    ∃ msgs r, tt msgs = some r ∧ r.forkEntry = f := by
  induction ts generalizing ts2 f with
  | nil => cases h
  | cons t rest ih =>
    unfold applyForkTransformThreads at h
    cases hr : tt t.messages with
    | some r =>
      simp only [hr] at h
      cases h
      exact ⟨t.messages, r, hr, rfl⟩
    | none =>
      simp only [hr] at h
      cases hrec : applyForkTransformThreads rest tt with
      | none =>
        rw [hrec] at h
        cases h
      | some p =>
        obtain ⟨ts3, f3⟩ := p
        rw [hrec] at h
        cases h
        exact ih _ _ hrec

/-- The fork entry coming out of the thread scan of `switchForkToPosition`
is produced by `switchForkInMessagesToPosition` on some thread's
timeline. -/
theorem switchForkToPositionThreads_fork (ts : List SessionThread)
    (e : MessageForkEntry) (k : String) (t : Nat) (ts2 : List SessionThread)
    (f : Option MessageForkEntry)
    (h : switchForkToPositionThreads ts e k t = some (ts2, f)) :
    ∃ msgs r, switchForkInMessagesToPosition msgs e k t = some r ∧ r.fork = f := by
  induction ts generalizing ts2 f with
  | nil => cases h
  | cons th rest ih =>
    unfold switchForkToPositionThreads at h
    cases hr : switchForkInMessagesToPosition th.messages e k t with
    | some r =>
      simp only [hr] at h
      cases h
      exact ⟨th.messages, r, hr, rfl⟩
    | none =>
      simp only [hr] at h
      cases hrec : switchForkToPositionThreads rest e k t with
      | none =>
        rw [hrec] at h
        cases h
      | some p =>
        obtain ⟨ts3, f3⟩ := p
        rw [hrec] at h
        cases h
        exact ih _ _ hrec

/-- `buildSwitchForkPatch` preserves the fork-map invariant. -/
theorem sessionForks_buildSwitchForkPatch (s : Session) (k : String) (d : ForkDirection)
    (s2 : Session) (hinv : sessionForksInvariant s)
    (h : buildSwitchForkPatch s k d = some s2) : sessionForksInvariant s2 := by
  unfold buildSwitchForkPatch at h
  cases hfm : s.messageForksHash with
  | none =>
    rw [hfm] at h
    cases h
  | some fm =>
    have hfm2 : ∀ p ∈ fm, forkEntryInvariant p.2 := by
      intro p hp
      apply hinv
      rw [hfm]
      exact hp
    simp only [hfm] at h
    cases hlk : fm.lookup k with
    | none =>
      simp only [hlk] at h
      cases h
    | some e =>
      simp only [hlk] at h
      split at h
      · cases h
      · rename_i hle
        have hlen : 0 < e.lists.length := by omega
        cases hroot : switchForkInMessages s.messages e k d with
        | some r =>
          simp only [hroot] at h
          cases h
          intro p hp
          exact computeNext_invariant (some fm) k r.fork hfm2
            (switchForkInMessages_fork_invariant s.messages e k d r hlen hroot) p hp
        | none =>
          simp only [hroot] at h
          cases hts : s.threads with
          | none =>
            rw [hts] at h
            cases h
          | some ts =>
            simp only [hts] at h
            cases hsc : switchForkInThreads ts e k d with
            | none =>
              rw [hsc] at h
              cases h
            | some p =>
              obtain ⟨ts2, f⟩ := p
              rw [hsc] at h
              cases h
              intro q hq
              obtain ⟨msgs, r, hr, hf⟩ := switchForkInThreads_fork ts e k d ts2 f hsc
              refine computeNext_invariant (some fm) k f hfm2 ?_ q hq
              intro e2 he2
              exact switchForkInMessages_fork_invariant msgs e k d r hlen hr e2
                (hf.trans he2)

/-- `switchFork` preserves the fork-map invariant. -/
theorem sessionForks_switchFork (s : Session) (k : String) (d : ForkDirection)
    (hinv : sessionForksInvariant s) : sessionForksInvariant (switchFork s k d) := by
  unfold switchFork
  cases hp : buildSwitchForkPatch s k d with
  | none => exact hinv
  | some s2 => exact sessionForks_buildSwitchForkPatch s k d s2 hinv hp

/-- `applyForkTransform` preserves the fork-map invariant whenever the
transform only ever produces invariant-satisfying entries. -/
theorem sessionForks_applyForkTransform (s : Session) (k : String)
    (ensure : Unit → Option MessageForkEntry)
    (transform : List Message → MessageForkEntry → Option ForkTransformResult)
    (s2 : Session) (hinv : sessionForksInvariant s)
    (htr : ∀ msgs e r, transform msgs e = some r →
      ∀ e2, r.forkEntry = some e2 → forkEntryInvariant e2)
    (h : applyForkTransform s k ensure transform = some s2) :
    sessionForksInvariant s2 := by
  have htry : ∀ msgs r,
      (match ensure () with
       | none => none
       | some forkEntry => transform msgs forkEntry) = some r →
      ∀ e2, r.forkEntry = some e2 → forkEntryInvariant e2 := by
    intro msgs r hr
    cases hen : ensure () with
    | none =>
      rw [hen] at hr
      cases hr
    | some fe =>
      rw [hen] at hr
      exact htr msgs fe r hr
  simp only [applyForkTransform] at h
  cases hroot : (match ensure () with
      | none => none
      | some forkEntry => transform s.messages forkEntry) with
  | some r =>
    simp only [hroot] at h
    cases h
    intro p hp
    exact computeNext_invariant s.messageForksHash k r.forkEntry hinv
      (htry s.messages r hroot) p hp
  | none =>
    simp only [hroot] at h
    cases hts : s.threads with
    | none =>
      rw [hts] at h
      cases h
    | some ts =>
      simp only [hts] at h
      cases hsc : applyForkTransformThreads ts (fun messages =>
          match ensure () with
          | none => none
          | some forkEntry => transform messages forkEntry) with
      | none =>
        rw [hsc] at h
        cases h
      | some p =>
        obtain ⟨ts2, f⟩ := p
        rw [hsc] at h
        cases h
        intro q hq
        obtain ⟨msgs, r, hr, hf⟩ := applyForkTransformThreads_fork ts _ ts2 f hsc
        refine computeNext_invariant s.messageForksHash k f hinv ?_ q hq
        intro e2 he2
        exact htry msgs r hr e2 (hf.trans he2)

/-- `createNewFork` preserves the fork-map invariant. -/
theorem sessionForks_createNewFork (s : Session) (k fe st nb : String) (now : Nat)
    (hinv : sessionForksInvariant s) :
    sessionForksInvariant (createNewFork s k fe st nb now) := by
  unfold createNewFork
  cases hp : buildCreateForkPatch s k fe st nb now with
  | none => exact hinv
  | some s2 =>
    unfold buildCreateForkPatch at hp
    exact sessionForks_applyForkTransform s k _ _ s2 hinv
      (createForkTransform_fork_invariant k st nb) hp

/-- `deleteFork` preserves the fork-map invariant. -/
theorem sessionForks_deleteFork (s : Session) (k : String)
    (hinv : sessionForksInvariant s) : sessionForksInvariant (deleteFork s k) := by
  unfold deleteFork
  cases hp : buildDeleteForkPatch s k with
  | none => exact hinv
  | some s2 =>
    unfold buildDeleteForkPatch at hp
    exact sessionForks_applyForkTransform s k _ _ s2 hinv
      (deleteForkTransform_fork_invariant k) hp

/-- `expandFork` preserves the fork-map invariant. -/
theorem sessionForks_expandFork (s : Session) (k : String)
    (hinv : sessionForksInvariant s) : sessionForksInvariant (expandFork s k) := by
  unfold expandFork
  cases hp : buildExpandForkPatch s k with
  | none => exact hinv
  | some s2 =>
    unfold buildExpandForkPatch at hp
    exact sessionForks_applyForkTransform s k _ _ s2 hinv
      (expandForkTransform_fork_invariant k) hp

/-- `switchForkToPosition` preserves the fork-map invariant. -/
theorem sessionForks_switchForkToPosition (s : Session) (k : String) (t : Nat)
    (hinv : sessionForksInvariant s) :
    sessionForksInvariant (switchForkToPosition s k t) := by
  unfold switchForkToPosition
  cases hfm : s.messageForksHash with
  | none => exact hinv
  | some fm =>
    have hfm2 : ∀ p ∈ fm, forkEntryInvariant p.2 := by
      intro p hp
      apply hinv
      rw [hfm]
      exact hp
    simp only [hfm]
    cases hlk : fm.lookup k with
    | none =>
      simp only [hlk]
      exact hinv
    | some e =>
      simp only [hlk]
      split
      · exact hinv
      · cases hroot : switchForkInMessagesToPosition s.messages e k t with
        | some r =>
          simp only [hroot]
          intro p hp
          exact computeNext_invariant (some fm) k r.fork hfm2
            (switchForkInMessagesToPosition_fork_invariant s.messages e k t r hroot) p hp
        | none =>
          simp only [hroot]
          cases hts : s.threads with
          | none => exact hinv
          | some ts =>
            simp only []
            split
            · exact hinv
            · cases hsc : switchForkToPositionThreads ts e k t with
              | none =>
                simp only [hsc]
                exact hinv
              | some p =>
                obtain ⟨ts2, f⟩ := p
                simp only [hsc]
                intro q hq
                obtain ⟨msgs, r, hr, hf⟩ := switchForkToPositionThreads_fork ts e k t ts2 f hsc
                refine computeNext_invariant (some fm) k f hfm2 ?_ q hq
                intro e2 he2
                exact switchForkInMessagesToPosition_fork_invariant msgs e k t r hr e2
                  (hf.trans he2)

/-- C4.  Every Fork Engine operation — `createNewFork`, `switchFork`,
`switchForkToPosition`, `deleteFork`, `expandFork` — preserves the
fork-entry invariant: if every fork entry of the session satisfies
`lists.length ≥ 1`, `position < lists.length` and "the branch record at
`position` stores an empty message list" before the operation, then every
surviving fork entry satisfies it afterwards. -/
theorem c4_fork_invariant_preserved (s : Session) (op : ForkOp)
    (hinv : sessionForksInvariant s) : sessionForksInvariant (applyForkOp s op) := by
  cases op with
  | create a fe st nb now => exact sessionForks_createNewFork s a fe st nb now hinv
  | switch a d => exact sessionForks_switchFork s a d hinv
  | switchTo a t => exact sessionForks_switchForkToPosition s a t hinv
  | delete a => exact sessionForks_deleteFork s a hinv
  | expand a => exact sessionForks_expandFork s a hinv

/-- C4, witness: a concrete session satisfying the invariant still does
after a `deleteFork`. -/
theorem c4_fork_invariant_preserved_witness :
    sessionForksInvariant c2session ∧
    sessionForksInvariant (applyForkOp c2session (ForkOp.delete "u1")) :=
  ⟨by decide, c4_fork_invariant_preserved c2session (ForkOp.delete "u1") (by decide)⟩

/-! ## Claim C6: switchFork next-then-prev round trip -/

/-- A fork entry with three branches: branch 0 stores content, the live
position 1 is stored empty (per the invariant), and branch 2 is an *empty*
stored branch (reachable e.g. via `switchForkToPosition` away from an empty
tail). -/
def c6entry : MessageForkEntry :=
  { position := 1,
    lists := [{ id := "bA", messages := [c7asst1] },
              { id := "bB", messages := [] },
              { id := "bC", messages := [] }],
    createdAt := 1 }

/-- A session whose live timeline is `[user1, asst2]` with the fork anchored
at `user1` and a non-empty live tail. -/
def c6session : Session :=
  { id := "S", name := "sess", threadName := none,
    messages := [c7user1, c7asst2],
    threads := none,
    messageForksHash := some [("u1", c6entry)],
    compactionPoints := none,
    settings := none }

/-- C6, counterexample.  The starting live tail `[asst2]` is non-empty (so
the claim's only stated exception, the auto-prune of an empty starting
tail, does not apply) and the entry has `lists.length = 3 > 1`; yet
`switchFork(next)` lands on the empty stored branch `bC`, and the following
`switchFork(prev)` finds the now-live tail empty, prunes `bC`, and lands on
branch `bA` — the timeline after the round trip is `[user1, asst1]`, not
the original `[user1, asst2]`. -/
theorem c6_switchFork_roundtrip_counterexample :
    (c6session.messages.drop 1 ≠ []) ∧
    (1 < c6entry.lists.length) ∧
    (switchFork (switchFork c6session "u1" ForkDirection.next) "u1"
        ForkDirection.prev).messages = [c7user1, c7asst1] ∧
    (switchFork (switchFork c6session "u1" ForkDirection.next) "u1"
        ForkDirection.prev).messages ≠ c6session.messages := by
  refine ⟨by decide, by decide, by decide, by decide⟩

theorem mod_next_ne (p n : Nat) (hp : p < n) (hn : 1 < n) : p ≠ (p + 1) % n := by
  rcases Nat.lt_or_ge (p + 1) n with h | h
  · rw [Nat.mod_eq_of_lt h]
    omega
  · have hpn : p + 1 = n := by omega
    rw [hpn, Nat.mod_self]
    omega

theorem mod_next_prev (p n : Nat) (hp : p < n) :
    ((p + 1) % n + n - 1) % n = p := by
  rcases Nat.lt_or_ge (p + 1) n with h | h
  · rw [Nat.mod_eq_of_lt h]
    have h2 : p + 1 + n - 1 = n + p := by omega
    rw [h2, Nat.add_mod_left, Nat.mod_eq_of_lt hp]
  · have hpn : p + 1 = n := by omega
    rw [hpn, Nat.mod_self]
    have h2 : 0 + n - 1 = n - 1 := by omega
    rw [h2, Nat.mod_eq_of_lt (by omega)]
    omega

/-- Looking up the key just written by `computeNextMessageForksHash` finds
the new entry. -/
theorem lookup_filter_append (m : ForkMap) (k : String) (e : MessageForkEntry) :
    ((m.filter (fun p => decide (p.1 ≠ k)) ++ [(k, e)]).lookup k) = some e := by
  induction m with
  | nil => simp [List.lookup]
  | cons a rest ih =>
    by_cases ha : a.1 ≠ k
    · rw [show (a :: rest).filter (fun p => decide (p.1 ≠ k)) =
          a :: rest.filter (fun p => decide (p.1 ≠ k)) by
        simp [List.filter_cons, ha]]
      obtain ⟨a1, a2⟩ := a
      simp only [List.cons_append, List.lookup]
      rw [show (k == a1) = false by
        simp only [ne_eq] at ha
        simp [beq_eq_false_iff_ne]
        exact fun hh => ha (hh.symm)]
      exact ih
    · rw [show (a :: rest).filter (fun p => decide (p.1 ≠ k)) =
          rest.filter (fun p => decide (p.1 ≠ k)) by
        simp [List.filter_cons, ha]]
      exact ih

theorem mapIdx_congr (f g : Nat → α → β) (l : List α) (h : ∀ i a, f i a = g i a) :
    mapIdx f l = mapIdx g l := by
  have haux : ∀ (j : Nat) (l2 : List α), mapIdxFrom f j l2 = mapIdxFrom g j l2 := by
    intro j l2
    induction l2 generalizing j with
    | nil => rfl
    | cons x xs ih => simp [mapIdxFrom, h, ih]
  exact haux 0 l

/-- Evaluation of `switchForkInMessages` when the anchor is at index `i` and
the live tail after it is non-empty: no pruning happens, the tail is stored
at the old position, and the target branch is spliced inline and emptied. -/
theorem switchForkInMessages_eval_next (msgs : List Message) (e : MessageForkEntry)
    (k : String) (i : Nat)
    (hidx : findIndex (fun m => decide (m.id = k)) msgs = some i)
    (hne : (msgs.drop (i + 1)).isEmpty = false) :
    switchForkInMessages msgs e k ForkDirection.next =
      some { messages := msgs.take (i + 1) ++
               (((e.lists.get? ((e.position + 1) % e.lists.length)).map
                 ForkList.messages).getD []),
             fork := some { e with
               position := (e.position + 1) % e.lists.length,
               lists := mapIdx (fun index list =>
                 if index = e.position ∧ e.position ≠ (e.position + 1) % e.lists.length then
                   { list with messages := msgs.drop (i + 1) }
                 else if index = (e.position + 1) % e.lists.length then
                   { list with messages := [] }
                 else list) e.lists } } := by
  unfold switchForkInMessages
  simp only [hidx, hne, Bool.false_eq_true, false_and, if_false, eq_self_iff_true, true_and]

/-- Evaluation of `switchForkInMessages` in direction `prev` with a
non-empty live tail. -/
theorem switchForkInMessages_eval_prev (msgs : List Message) (e : MessageForkEntry)
    (k : String) (i : Nat)
    (hidx : findIndex (fun m => decide (m.id = k)) msgs = some i)
    (hne : (msgs.drop (i + 1)).isEmpty = false) :
    switchForkInMessages msgs e k ForkDirection.prev =
      some { messages := msgs.take (i + 1) ++
               (((e.lists.get? ((e.position + e.lists.length - 1) % e.lists.length)).map
                 ForkList.messages).getD []),
             fork := some { e with
               position := (e.position + e.lists.length - 1) % e.lists.length,
               lists := mapIdx (fun index list =>
                 if index = e.position ∧
                     e.position ≠ (e.position + e.lists.length - 1) % e.lists.length then
                   { list with messages := msgs.drop (i + 1) }
                 else if index = (e.position + e.lists.length - 1) % e.lists.length then
                   { list with messages := [] }
                 else list) e.lists } } := by
  unfold switchForkInMessages
  simp only [hidx, hne, Bool.false_eq_true, false_and, if_false, eq_self_iff_true, true_and]

/-- C6, amended.  `switchFork(next)` then `switchFork(prev)` from the same
starting position restores the original timeline (and in particular the
original live tail byte-for-byte), provided the starting tail is non-empty
(the claim's stated auto-prune exception) *and* the stored branch being
switched into is non-empty — the amendment adds this second exception: if
the target branch is empty, the return trip finds the live tail empty,
auto-prunes that branch and can land on a different branch (see the
counterexample). -/
theorem c6_switchFork_roundtrip_amended (s : Session) (fm : ForkMap) (k : String)
    (e : MessageForkEntry) (i : Nat) (bl : ForkList)
    (hfm : s.messageForksHash = some fm)
    (hlk : fm.lookup k = some e)
    (hlen : 1 < e.lists.length)
    (hpos : e.position < e.lists.length)
    (hidx : findIndex (fun m => decide (m.id = k)) s.messages = some i)
    (htail : (s.messages.drop (i + 1)).isEmpty = false)
    (hbl : e.lists.get? ((e.position + 1) % e.lists.length) = some bl)
    (hblne : bl.messages.isEmpty = false) :
    (switchFork (switchFork s k ForkDirection.next) k ForkDirection.prev).messages =
      s.messages := by
  set T := s.messages.drop (i + 1) with hT
  set pre := s.messages.take (i + 1) with hpre
  set np := (e.position + 1) % e.lists.length with hnp
  set L1 := mapIdx (fun index list =>
    if index = e.position ∧ e.position ≠ np then { list with messages := T }
    else if index = np then { list with messages := [] }
    else list) e.lists with hL1
  set e1 : MessageForkEntry := { e with position := np, lists := L1 } with he1
  have hswA2 : switchForkInMessages s.messages e k ForkDirection.next =
      some { messages := pre ++ bl.messages, fork := some e1 } := by
    rw [switchForkInMessages_eval_next s.messages e k i hidx htail, hbl]
    rfl
  have hs1 : switchFork s k ForkDirection.next =
      { s with
        messages := pre ++ bl.messages,
        messageForksHash :=
          some (fm.filter (fun q => decide (q.1 ≠ k)) ++ [(k, e1)]) } := by
    unfold switchFork buildSwitchForkPatch
    simp only [hfm, hlk]
    rw [if_neg (show ¬ e.lists.length ≤ 1 by omega)]
    rw [hswA2]
    rfl
  have hi := findIndex_lt_length _ _ _ hidx
  have hlentake : pre.length = i + 1 := by
    rw [hpre, List.length_take]
    omega
  have hidx1 : findIndex (fun m => decide (m.id = k)) (pre ++ bl.messages) = some i :=
    findIndex_take_append _ _ _ hidx _
  have htail1 : ((pre ++ bl.messages).drop (i + 1)).isEmpty = false := by
    rw [show i + 1 = pre.length from hlentake.symm, List.drop_left]
    exact hblne
  have hswB := switchForkInMessages_eval_prev (pre ++ bl.messages) e1 k i hidx1 htail1
  have hlen1 : e1.lists.length = e.lists.length := length_mapIdx _ _
  have hnp2 : (e1.position + e1.lists.length - 1) % e1.lists.length = e.position := by
    rw [show e1.position = np from rfl, hlen1, hnp]
    exact mod_next_prev e.position e.lists.length hpos
  obtain ⟨lp, hlp⟩ : ∃ lp, e.lists.get? e.position = some lp := by
    rw [List.get?_eq_get hpos]
    exact ⟨_, rfl⟩
  have hpnp : e.position ≠ np := by
    rw [hnp]
    exact mod_next_ne e.position e.lists.length hpos hlen
  have hget1 : e1.lists.get? e.position = some { lp with messages := T } := by
    show (mapIdx _ e.lists).get? e.position = _
    rw [get?_mapIdx, hlp]
    simp only [Option.map_some']
    rw [if_pos ⟨by trivial, hpnp⟩]
  rw [hnp2, hget1] at hswB
  have htake1 : (pre ++ bl.messages).take (i + 1) = pre := by
    rw [show i + 1 = pre.length from hlentake.symm]
    exact List.take_left pre bl.messages
  rw [htake1] at hswB
  rw [hs1]
  unfold switchFork buildSwitchForkPatch
  simp only [lookup_filter_append]
  rw [if_neg (show ¬ e1.lists.length ≤ 1 by rw [hlen1]; omega)]
  simp only [hswB]
  rw [hpre, hT]
  exact List.take_append_drop (i + 1) s.messages

/-- A two-branch fork entry whose stored non-live branch is non-empty. -/
def c6okEntry : MessageForkEntry :=
  { position := 0,
    lists := [{ id := "b0", messages := [] }, { id := "b1", messages := [c7asst1] }],
    createdAt := 1 }

/-- A session for the C6 witness: non-empty live tail and non-empty target
branch. -/
def c6okSession : Session :=
  { id := "S", name := "sess", threadName := none,
    messages := [c7user1, c7asst2],
    threads := none,
    messageForksHash := some [("u1", c6okEntry)],
    compactionPoints := none,
    settings := none }

/-- C6, witness for the amended theorem. -/
theorem c6_switchFork_roundtrip_amended_witness :
    (switchFork (switchFork c6okSession "u1" ForkDirection.next) "u1"
        ForkDirection.prev).messages = c6okSession.messages := by
  exact c6_switchFork_roundtrip_amended c6okSession [("u1", c6okEntry)] "u1" c6okEntry 0
    { id := "b1", messages := [c7asst1] } rfl (by decide) (by decide) (by decide)
    (by decide) (by decide) (by decide) (by decide)
